import Mathlib

/-!
Shallow embedding of the Blossom package dependency loader
(`SC.Package` in `src/application/surfaces/composite.js`).

Modelling conventions:
* The process-wide manifest `SC.PACKAGE_MANIFEST` becomes `Manifest`, a
  function from package names to optional `PackageRecord`s; JS property
  deletion becomes setting an `Option` field to `none`.
* JavaScript values, as far as this code inspects them (truthiness,
  `SC.none`, `SC.typeOf(x) === SC.T_FUNCTION`), become `JSVal`.
* The execution sink (`window.execScript` / `eval`) and whether a queued
  callback throws are boolean oracles in `Ctx`; `SC.PACKAGE_MODE` is the
  `flags` bitmask field of `Ctx`.
* Exceptions thrown by the loader itself become `Except String`; a thrown
  JS exception aborts the surrounding synchronous call chain, which the
  `Except` propagation mirrors.
* Observable actions (entering `loadPackage`, issuing a fetch, handing a
  code string to the execution sink, invoking a callback, entering the
  did-execute notification) are recorded in an `Event` trace.
* The mutually recursive `loadPackage` / `_sc_evaluateJavaScriptForPackage`
  / `_sc_packageDidExecute` cycle is a single fuel-indexed structural
  function `step`; fuel exhaustion is an `Except.error`, never silently
  returned as a result.
-/

namespace Blossom

/-- JavaScript values as far as the package manager inspects them:
null/undefined, function values, other objects, and strings. -/
inductive JSVal where
  | null
  | fn (id : Nat)
  | obj (id : Nat)
  | str (s : String)
deriving DecidableEq, Repr, Inhabited

/-- JS truthiness restricted to the values above. -/
def JSVal.truthy : JSVal → Bool
  | .null => false
  | .str s => s ≠ ""
  | _ => true

/-- Models `SC.typeOf(x) === SC.T_FUNCTION`. -/
def JSVal.isFunction : JSVal → Bool
  | .fn _ => true
  | _ => false

/-- Models `SC.none(x)` (x is null or undefined). -/
def scNone : JSVal → Bool
  | .null => true
  | _ => false

/-- One queued continuation: the closure built by
`registerCallbackForPackage` captures the (normalized) target, method and
the argument list, whose head is always the package name. -/
structure Callback where
  target : JSVal
  method : JSVal
  args : List JSVal
deriving DecidableEq, Repr, Inhabited

/-- The four code-category keys of a package's `source` mapping. -/
inductive Part where
  | other
  | models
  | controllers
  | views
deriving DecidableEq, Repr, Inhabited

/-- A package's `source` property: code payload per category
(`none` models an absent key). -/
structure Source where
  other : Option String := none
  models : Option String := none
  controllers : Option String := none
  views : Option String := none
deriving DecidableEq, Repr, Inhabited

/-- Reading `source[part]`. -/
def Source.get (src : Source) : Part → Option String
  | .other => src.other
  | .models => src.models
  | .controllers => src.controllers
  | .views => src.views

/-- `delete package.source[part]`. -/
def Source.del (src : Source) : Part → Source
  | .other => { src with other := none }
  | .models => { src with models := none }
  | .controllers => { src with controllers := none }
  | .views => { src with views := none }

/-- Truthiness of `source[part]` (present and non-empty). -/
def optTruthy : Option String → Bool
  | some s => s ≠ ""
  | none => false

/-- One entry of `SC.PACKAGE_MANIFEST`.  Booleans model JS truthiness of
the corresponding flags; `Option` fields model possibly-absent
properties (`none` = property deleted / never set). -/
structure PackageRecord where
  isLoading : Bool := false
  isLoaded : Bool := false
  isReady : Bool := false
  isExecuted : Bool := false
  didFailToEvaluate : Bool := false
  doNotExecute : Bool := false
  dependencies : Option (List String) := none
  dependents : Option (List String) := none
  failedDependencies : Option (List String) := none
  source : Option Source := none
  callbacks : Option (List Callback) := none
deriving DecidableEq, Repr, Inhabited

/-- The process-wide manifest `SC.PACKAGE_MANIFEST`. -/
abbrev Manifest := String → Option PackageRecord

/-- Store an updated record under a name. -/
def Manifest.update (m : Manifest) (name : String) (p : PackageRecord) : Manifest :=
  fun k => if k = name then some p else m k

/-- Build a concrete manifest from an association list. -/
def Manifest.ofList (l : List (String × PackageRecord)) : Manifest :=
  fun k => (l.find? (fun e => e.1 = k)).map (fun e => e.2)

/-- Observable actions of the loader. -/
inductive Event where
  | loadTriggered (pkg : String)
  | fetch (pkg : String)
  | execCode (pkg : String) (code : String)
  | cbInvoked (pkg : String) (cb : Callback)
  | didExecute (pkg : String)
deriving DecidableEq, Repr

/-- Ambient collaborators: the execution sink result oracle, the
callback-throw oracle, and the global `SC.PACKAGE_MODE` bitmask. -/
structure Ctx where
  exec : String → Bool
  cbThrows : Callback → Bool
  flags : Nat

/-- Argument of `SC.Package.isLoaded`: a package name or a package hash. -/
inductive PkgRef where
  | byName (name : String)
  | byHash (p : PackageRecord)

/-- Embeds `SC.Package.isLoaded` (composite.js lines 169-177).  For an
unknown name the source does `throw "SC.Package.isLoaded() could not find
..."`, modelled as `Except.error`. -/
def isLoaded (m : Manifest) : PkgRef → Except String Bool
  | .byHash p => .ok p.isLoaded
  | .byName n =>
    match m n with
    | some p => .ok p.isLoaded
    | none => .error ("SC.Package.isLoaded() could not find " ++ n)

/-- The target/method/args normalization inside
`registerCallbackForPackage` (lines 345-351): a callable target becomes
the method (the original method, when given, is prepended to the args),
and a falsy target becomes null. -/
def normalizeCallback (target method : JSVal) (args : List JSVal) :
    JSVal × JSVal × List JSVal :=
  if target.truthy then
    if target.isFunction then
      (JSVal.null, target, if !(scNone method) then method :: args else args)
    else (target, method, args)
  else (JSVal.null, method, args)

/-- Embeds `SC.Package.registerCallbackForPackage` (lines 328-373):
missing package or both target and method none is a no-op; after
normalization a non-function method is silently dropped; otherwise the
package name is prepended to the args and the callback is pushed onto the
record's queue (created on demand). -/
def registerCallbackForPackage (m : Manifest) (name : String)
    (target method : JSVal) (args : List JSVal) : Manifest :=
  match m name with
  | none => m
  | some p =>
    if scNone target && scNone method then m
    else
      match normalizeCallback target method args with
      | (target1, method1, args1) =>
        if !method1.truthy || !method1.isFunction then m
        else
          let cb : Callback := ⟨target1, method1, JSVal.str name :: args1⟩
          Manifest.update m name
            { p with callbacks := some (p.callbacks.getD [] ++ [cb]) }

/-- The callback loop of `_sc_invokeCallbacksForPackage` (lines 827-834):
each callback runs inside try/catch, so a throwing callback is caught and
the loop continues; every callback is invoked in FIFO order. -/
def runCallbacks (ctx : Ctx) (name : String) : List Callback → List Event
  | [] => []
  | cb :: rest =>
    match (if ctx.cbThrows cb then Except.error () else Except.ok ()) with
    | .ok _ => Event.cbInvoked name cb :: runCallbacks ctx name rest
    | .error _ => Event.cbInvoked name cb :: runCallbacks ctx name rest

/-- Embeds `_sc_invokeCallbacksForPackage` (lines 820-839).  The source
has no missing-package guard: reading `.callbacks` of `undefined` throws
a TypeError, modelled as `Except.error`.  Afterwards the queue is deleted
(`delete package.callbacks`). -/
def invokeCallbacksForPackage (ctx : Ctx) (m : Manifest) (name : String) :
    Except String (Manifest × List Event) :=
  match m name with
  | none => .error ("TypeError: cannot read callbacks of undefined: " ++ name)
  | some p =>
    .ok (Manifest.update m name { p with callbacks := none },
         runCallbacks ctx name (p.callbacks.getD []))

/-- The dependency scan of `_sc_dependenciesMetForPackage` (lines
886-903): an unknown dependency throws; otherwise reports whether every
dependency record has `isExecuted` set.  (The source keeps scanning after
an unexecuted dependency and can still throw on a later unknown name,
which the head-first recursion preserves.) -/
def depsAllExecuted (m : Manifest) (pkgName : String) :
    List String → Except String Bool
  | [] => .ok true
  | d :: rest =>
    match m d with
    | none =>
      .error ("SC.Package._sc_dependenciesMetForPackage missing " ++ d
        ++ " needed by " ++ pkgName)
    | some dp => do
      let b ← depsAllExecuted m pkgName rest
      .ok (dp.isExecuted && b)

/-- Embeds `_sc_dependenciesMetForPackage` (lines 850-923).  Absent or
empty dependency list: sets `isReady` and returns true without deleting
the property.  Non-empty list: if every dependency is executed, deletes
the `dependencies` property and sets `isReady`; otherwise records
`isReady = false`.  (The source sets `isReady = false` once per
unexecuted dependency inside the loop; since an interrupting throw
discards the state here, the net effect is a single assignment.) -/
def dependenciesMetForPackage (m : Manifest) (name : String) :
    Except String (Bool × Manifest) :=
  match m name with
  | none => .ok (false, m)
  | some p =>
    match p.dependencies with
    | none => .ok (true, Manifest.update m name { p with isReady := true })
    | some deps =>
      if deps.length ≤ 0 then
        .ok (true, Manifest.update m name { p with isReady := true })
      else do
        let allExec ← depsAllExecuted m name deps
        if allExec then
          .ok (true, Manifest.update m name
            { p with dependencies := none, isReady := true })
        else
          .ok (false, Manifest.update m name { p with isReady := false })

/-- Embeds `SC.Package.loadJavaScript` (lines 470-512) up to its browser
effects: missing or already-loaded package is a no-op; otherwise the
`isLoading` flag is set and an asynchronous fetch is issued (recorded as
an event; its completion is outside a single synchronous call). -/
def loadJavaScriptFor (m : Manifest) (name : String) : Manifest × List Event :=
  match m name with
  | none => (m, [])
  | some p =>
    if p.isLoaded then (m, [])
    else (Manifest.update m name { p with isLoading := true }, [Event.fetch name])

/-- The partition selection of `_sc_evaluateJavaScriptForPackage` (lines
601-616): mode bits MODELS 0x01, VIEWS 0x02, CONTROLLERS 0x04, OTHER
0x08, NORMAL 0x10; NORMAL selects all four, and the else-branch pushes in
the fixed order other, models, controllers, views. -/
def selectParts (flags : Nat) : List Part :=
  if flags &&& 0x10 ≠ 0 then [Part.other, Part.models, Part.controllers, Part.views]
  else
    (if flags &&& 0x08 ≠ 0 then [Part.other] else [])
    ++ (if flags &&& 0x01 ≠ 0 then [Part.models] else [])
    ++ (if flags &&& 0x04 ≠ 0 then [Part.controllers] else [])
    ++ (if flags &&& 0x02 ≠ 0 then [Part.views] else [])

/-- The accumulation loop of `_sc_evaluateJavaScriptForPackage` (lines
618-631): for each selected part whose payload is truthy, append a
statement separator when code was already accumulated, append the
payload, and delete the partition from the source mapping. -/
def accumulateCode : Source → List Part → String → String × Source
  | src, [], code => (code, src)
  | src, part :: rest, code =>
    match src.get part with
    | some s =>
      if s ≠ "" then
        accumulateCode (src.del part) rest
          (if code ≠ "" then code ++ ";" ++ s else code ++ s)
      else accumulateCode src rest code
    | none => accumulateCode src rest code

/-- The four mutually recursive synchronous entry points of the loader,
fused into one fuel-indexed function: `loadPackage` (lines 192-260),
`_sc_evaluateJavaScriptForPackage` (564-670), `_sc_packageDidExecute`
(718-810) and the dependent-notification loop inside the latter
(757-809). -/
inductive Call where
  | load (name : String) (target method : JSVal) (args : List JSVal)
  | eval (name : String)
  | didExec (name : String)
  | depLoop (didFail : Bool) (name : String) (ds : List String)

/-- One fused interpreter for the mutually recursive call cycle
`loadPackage` → `_sc_evaluateJavaScriptForPackage` →
`_sc_packageDidExecute` → `loadPackage`, structurally recursive on fuel
so that it reduces definitionally.  Each `Call` branch mirrors the body
of the corresponding source function; the `Bool` in the result is the
return value of `loadPackage` (meaningless for the other calls). -/
def step (ctx : Ctx) : Nat → Call → Manifest → Except String (Manifest × List Event × Bool)
  | 0, _, _ => .error "out of fuel"
  | Nat.succ fuel, c, m =>
    match c with
    | .load name target method args =>
      -- loadPackage, lines 192-260
      match m name with
      | none => .ok (m, [Event.loadTriggered name], false)
      | some p =>
        if p.isLoaded then
          if p.isReady then
            if p.doNotExecute || p.failedDependencies.isSome || p.didFailToEvaluate then
              .ok (m, [Event.loadTriggered name], true)
            else if p.isExecuted then
              let m1 := registerCallbackForPackage m name target method args
              match invokeCallbacksForPackage ctx m1 name with
              | .error e => .error e
              | .ok (m2, tr) => .ok (m2, Event.loadTriggered name :: tr, true)
            else
              match step ctx fuel (.eval name) m with
              | .error e => .error e
              | .ok (m1, tr, _) => .ok (m1, Event.loadTriggered name :: tr, true)
          else .ok (m, [Event.loadTriggered name], false)
        else
          let m1 := registerCallbackForPackage m name target method args
          match loadJavaScriptFor m1 name with
          | (m2, tr) => .ok (m2, Event.loadTriggered name :: tr, false)
    | .eval name =>
      -- _sc_evaluateJavaScriptForPackage, lines 564-670
      match m name with
      | none => .ok (m, [], true)
      | some p =>
        if p.isExecuted then .ok (m, [], true)
        else match p.source with
          | none => .ok (m, [], true)
          | some src =>
            match accumulateCode src (selectParts ctx.flags) "" with
            | (code, src1) =>
              if code ≠ "" then
                let p1 : PackageRecord := { p with source := some src1 }
                let p2 : PackageRecord :=
                  if ctx.exec code then p1
                  else { p1 with isExecuted := false, didFailToEvaluate := true }
                match step ctx fuel (.didExec name) (Manifest.update m name p2) with
                | .error e => .error e
                | .ok (m2, tr, _) => .ok (m2, Event.execCode name code :: tr, true)
              else
                .ok (Manifest.update m name
                  { p with source := some src1, isExecuted := false }, [], true)
    | .didExec name =>
      -- _sc_packageDidExecute, lines 718-756
      match m name with
      | none => .ok (m, [Event.didExecute name], true)
      | some p =>
        let didFail := p.didFailToEvaluate
        let p1 : PackageRecord := if didFail then p else { p with isExecuted := true }
        let m1 := Manifest.update m name p1
        match invokeCallbacksForPackage ctx m1 name with
        | .error e => .error e
        | .ok (m2, tr1) =>
          match p1.dependents with
          | none => .ok (m2, Event.didExecute name :: tr1, true)
          | some ds =>
            if ds.length ≤ 0 then .ok (m2, Event.didExecute name :: tr1, true)
            else
              match step ctx fuel (.depLoop didFail name ds) m2 with
              | .error e => .error e
              | .ok (m3, tr2, _) =>
                .ok (m3, Event.didExecute name :: (tr1 ++ tr2), true)
    | .depLoop _ _ [] => .ok (m, [], true)
    | .depLoop didFail name (d :: rest) =>
      -- the dependent loop of _sc_packageDidExecute, lines 757-809
      match m d with
      | none =>
        .error ("SC.Package._sc_packageDidExecute cannot find dependent " ++ d
          ++ " for " ++ name)
      | some dep =>
        match dep.dependencies with
        | none => step ctx fuel (.depLoop didFail name rest) m
        | some dl =>
          if dep.isReady then step ctx fuel (.depLoop didFail name rest) m
          else match dl.findIdx? (fun x => x = name) with
            | none => step ctx fuel (.depLoop didFail name rest) m
            | some pos =>
              if didFail then
                let dep1 : PackageRecord := { dep with
                  failedDependencies := some (dep.failedDependencies.getD [] ++ [name]),
                  doNotExecute := true }
                step ctx fuel (.depLoop didFail name rest) (Manifest.update m d dep1)
              else
                let m1 := Manifest.update m d
                  { dep with dependencies := some (dl.eraseIdx pos) }
                match dependenciesMetForPackage m1 d with
                | .error e => .error e
                | .ok (ok1, m2) =>
                  if ok1 then
                    match step ctx fuel (.load d JSVal.null JSVal.null []) m2 with
                    | .error e => .error e
                    | .ok (m3, tr1, _) =>
                      match step ctx fuel (.depLoop didFail name rest) m3 with
                      | .error e => .error e
                      | .ok (m4, tr2, _) => .ok (m4, tr1 ++ tr2, true)
                  else step ctx fuel (.depLoop didFail name rest) m2

/-- Embeds `SC.Package.loadPackage` (lines 192-260) at a given fuel. -/
def loadPackage (ctx : Ctx) (fuel : Nat) (m : Manifest) (name : String)
    (target method : JSVal) (args : List JSVal) :
    Except String (Manifest × List Event × Bool) :=
  step ctx fuel (.load name target method args) m

/-- Embeds `SC.Package._sc_evaluateJavaScriptForPackage` (lines 564-670)
at a given fuel. -/
def evaluateJavaScriptForPackage (ctx : Ctx) (fuel : Nat) (m : Manifest)
    (name : String) : Except String (Manifest × List Event × Bool) :=
  step ctx fuel (.eval name) m

/-- Embeds `SC.Package._sc_packageDidExecute` (lines 718-810) at a given
fuel. -/
def packageDidExecute (ctx : Ctx) (fuel : Nat) (m : Manifest)
    (name : String) : Except String (Manifest × List Event × Bool) :=
  step ctx fuel (.didExec name) m

/-- Repeatedly call `loadPackage` for a fixed package (keeping the
manifest unchanged when the call throws or runs out of fuel). -/
def iterLoadPackage (ctx : Ctx) (fuel : Nat) (name : String)
    (target method : JSVal) (args : List JSVal) : Nat → Manifest → Manifest
  | 0, m => m
  | Nat.succ k, m =>
    match step ctx fuel (.load name target method args) m with
    | .ok (m1, _, _) => iterLoadPackage ctx fuel name target method args k m1
    | .error _ => m

/-! ### Basic lemmas about the manifest and the callback loop -/

theorem Manifest.update_same (m : Manifest) (name : String) (p : PackageRecord) :
    Manifest.update m name p name = some p := by
  simp [Manifest.update]

theorem Manifest.update_ne (m : Manifest) (name k : String) (p : PackageRecord)
    (h : k ≠ name) : Manifest.update m name p k = m k := by
  simp [Manifest.update, h]

theorem Manifest.update_self (m : Manifest) (name : String) (p : PackageRecord)
    (h : m name = some p) : Manifest.update m name p = m := by
  funext k
  by_cases hk : k = name
  · subst hk; simp [Manifest.update, h]
  · simp [Manifest.update, hk]

theorem Manifest.update_update (m : Manifest) (name : String) (p q : PackageRecord) :
    Manifest.update (Manifest.update m name p) name q = Manifest.update m name q := by
  funext k
  by_cases hk : k = name <;> simp [Manifest.update, hk]

theorem runCallbacks_eq_map (ctx : Ctx) (name : String) (cbs : List Callback) :
    runCallbacks ctx name cbs = cbs.map (Event.cbInvoked name) := by
  induction cbs with
  | nil => rfl
  | cons cb rest ih => cases h : ctx.cbThrows cb <;> simp [runCallbacks, h, ih]

/-! ### Concrete fixtures used by counterexamples and witnesses -/

/-- A manifest with no packages at all. -/
def emptyManifest : Manifest := fun _ => none

/-- An execution context where the sink always succeeds, no callback
throws and the mode is NORMAL. -/
def ctxNormal : Ctx := ⟨fun _ => true, fun _ => false, 0x10⟩

/-! ### C10 -/

/-- C10: whenever, after the target/method normalization (a callable
target becomes the method), the resulting method is absent or not a
function, `registerCallbackForPackage` queues nothing — the manifest (in
particular the record's callback queue) is left unchanged, so the dropped
callback can never be invoked. -/
theorem registerCallback_drops_nonfunction_method (m : Manifest) (name : String)
    (target method : JSVal) (args : List JSVal)
    (h : (normalizeCallback target method args).2.1.isFunction = false) :
    registerCallbackForPackage m name target method args = m := by
  unfold registerCallbackForPackage
  cases hm : m name with
  | none => rfl
  | some p =>
    rcases hn : normalizeCallback target method args with ⟨t1, m1, a1⟩
    rw [hn] at h
    simp only at h
    simp [hn, h]

/-- C10 witness: a non-function method with a non-callable (object)
target is silently dropped. -/
def c10Manifest : Manifest := Manifest.ofList [("p", {})]

theorem registerCallback_drops_nonfunction_method_witness :
    registerCallbackForPackage c10Manifest "p" (JSVal.obj 0) (JSVal.obj 1) []
      = c10Manifest :=
  registerCallback_drops_nonfunction_method c10Manifest "p"
    (JSVal.obj 0) (JSVal.obj 1) [] (by decide)

/-! ### C8 -/

/-- C8 counterexample: `isLoaded` with an unknown package name throws
(its source line 175 is `throw "SC.Package.isLoaded() could not find
..."`), so not every public operation treats not-found as a reported
no-op failure. -/
theorem isLoaded_unknown_throws :
    isLoaded emptyManifest (.byName "ghost")
      = .error "SC.Package.isLoaded() could not find ghost" := rfl

/-- C8 amended: `loadPackage` given an unknown package name logs a
warning and returns false without throwing and without mutating the
store; `isLoaded`, by contrast, throws for an unknown name instead of
returning a failure indicator. -/
theorem loadPackage_unknown_reports (ctx : Ctx) (fuel : Nat) (m : Manifest)
    (name : String) (target method : JSVal) (args : List JSVal)
    (h : m name = none) :
    loadPackage ctx (fuel + 1) m name target method args
      = .ok (m, [Event.loadTriggered name], false) := by
  simp [loadPackage, step, h]

/-- C8 witness: `loadPackage` on the empty manifest reports and leaves
the store unchanged. -/
theorem loadPackage_unknown_reports_witness :
    loadPackage ctxNormal 1 emptyManifest "ghost" JSVal.null JSVal.null []
      = .ok (emptyManifest, [Event.loadTriggered "ghost"], false) :=
  loadPackage_unknown_reports ctxNormal 0 emptyManifest "ghost"
    JSVal.null JSVal.null [] rfl

/-! ### C1 -/

/-- C1 counterexample: a package whose `dependencies` property is a
present-but-empty list.  `_sc_dependenciesMetForPackage` returns true and
sets `isReady`, but the `dependencies` property is not deleted — it
remains the empty list — contradicting the claim that a true return
always deletes the property. -/
def c1Manifest : Manifest := Manifest.ofList [("p", { dependencies := some [] })]

theorem dependenciesMet_emptyList_not_deleted :
    (dependenciesMetForPackage c1Manifest "p").map
      (fun r => (r.1, (r.2 "p").map (fun q => (q.isReady, q.dependencies))))
      = .ok (true, some (true, some [])) := rfl

theorem depsAllExecuted_ok (m : Manifest) (n : String) (deps : List String)
    (h : ∀ d ∈ deps, (m d).isSome) :
    depsAllExecuted m n deps
      = .ok (deps.all (fun d => ((m d).getD default).isExecuted)) := by
  induction deps with
  | nil => rfl
  | cons d rest ih =>
    have hd := h d (by simp)
    cases hopt : m d with
    | none => rw [hopt] at hd; simp at hd
    | some dp =>
      have ihr := ih (fun x hx => h x (by simp [hx]))
      simp only [depsAllExecuted, hopt, ihr, List.all_cons]
      rfl

/-- C1 amended: for a package present in the manifest all of whose
dependency names resolve, `_sc_dependenciesMetForPackage` returns true
iff every dependency record has `isExecuted` set (trivially when the list
is absent or empty); when it returns true it sets `isReady`, and it
deletes the `dependencies` property exactly when the list was present and
non-empty (an absent list stays absent, an empty list is kept as the
empty list). -/
theorem dependenciesMet_characterization (m : Manifest) (name : String)
    (p : PackageRecord) (hp : m name = some p)
    (hres : ∀ d ∈ p.dependencies.getD [], (m d).isSome) :
    ∃ b m1, dependenciesMetForPackage m name = .ok (b, m1) ∧
      (b = true ↔ ∀ d ∈ p.dependencies.getD [],
        ((m d).getD default).isExecuted = true) ∧
      (b = true → ∃ q, m1 name = some q ∧ q.isReady = true ∧
        q.dependencies = (if p.dependencies = some ([] : List String)
          then some [] else none)) := by
  cases hdep : p.dependencies with
  | none =>
    refine ⟨true, Manifest.update m name { p with isReady := true }, ?_, ?_, ?_⟩
    · simp [dependenciesMetForPackage, hp, hdep]
    · simp [hdep]
    · intro _
      refine ⟨{ p with isReady := true }, Manifest.update_same m name _, rfl, ?_⟩
      simp [hdep]
  | some deps =>
    cases deps with
    | nil =>
      refine ⟨true, Manifest.update m name { p with isReady := true }, ?_, ?_, ?_⟩
      · simp [dependenciesMetForPackage, hp, hdep]
      · simp [hdep]
      · intro _
        refine ⟨{ p with isReady := true }, Manifest.update_same m name _, rfl, ?_⟩
        simp [hdep]
    | cons d ds =>
      rw [hdep] at hres
      simp only [Option.getD_some] at hres
      have hall := depsAllExecuted_ok m name (d :: ds) hres
      by_cases hb : (d :: ds).all (fun x => ((m x).getD default).isExecuted) = true
      · refine ⟨true,
          Manifest.update m name { p with dependencies := none, isReady := true },
          ?_, ?_, ?_⟩
        · simp [dependenciesMetForPackage, hp, hdep, hall, hb]
          rfl
        · simp only [hdep, Option.getD_some]
          simpa using (List.all_eq_true).mp hb
        · intro _
          refine ⟨{ p with dependencies := none, isReady := true },
            Manifest.update_same m name _, rfl, ?_⟩
          simp [hdep]
      · have hb2 : (d :: ds).all (fun x => ((m x).getD default).isExecuted) = false :=
          Bool.eq_false_iff.mpr hb
        refine ⟨false, Manifest.update m name { p with isReady := false }, ?_, ?_, ?_⟩
        · simp [dependenciesMetForPackage, hp, hdep, hall, hb2]
          rfl
        · constructor
          · intro hfalse; cases hfalse
          · intro hforall
            exfalso
            apply hb
            apply List.all_eq_true.mpr
            intro x hx
            have := hforall x (by simpa [hdep] using hx)
            simpa using this
        · intro hfalse; cases hfalse

/-- C1 witness: a package with one executed dependency is recognized as
ready and its dependency list is deleted. -/
def c1wManifest : Manifest := Manifest.ofList
  [("p", { dependencies := some ["q"] }), ("q", { isExecuted := true })]

theorem dependenciesMet_characterization_witness :
    ∃ b m1, dependenciesMetForPackage c1wManifest "p" = .ok (b, m1) ∧
      (b = true ↔ ∀ d ∈ (({ dependencies := some ["q"] } :
          PackageRecord)).dependencies.getD [],
        ((c1wManifest d).getD default).isExecuted = true) ∧
      (b = true → ∃ q, m1 "p" = some q ∧ q.isReady = true ∧
        q.dependencies = (if (({ dependencies := some ["q"] } :
            PackageRecord)).dependencies = some ([] : List String)
          then some [] else none)) :=
  dependenciesMet_characterization c1wManifest "p" _ (by decide) (by decide)

/-! ### C7 -/

/-- C7: `_sc_invokeCallbacksForPackage` runs every queued callback in
FIFO (registration) order — a throwing callback is caught (the
callback-throw oracle is universally quantified in `ctx` and does not
affect the trace), the record's state is altered only by deleting the
queue — and a second invocation finds no queue and invokes nothing. -/
theorem invokeCallbacks_fifo_caught_once (ctx : Ctx) (m : Manifest) (name : String)
    (p : PackageRecord) (cbs : List Callback)
    (hp : m name = some p) (hcb : p.callbacks = some cbs) :
    invokeCallbacksForPackage ctx m name
      = .ok (Manifest.update m name { p with callbacks := none },
             cbs.map (Event.cbInvoked name)) ∧
    invokeCallbacksForPackage ctx
        (Manifest.update m name { p with callbacks := none }) name
      = .ok (Manifest.update m name { p with callbacks := none }, []) := by
  constructor
  · simp [invokeCallbacksForPackage, hp, hcb, runCallbacks_eq_map]
  · simp only [invokeCallbacksForPackage, Manifest.update_same]
    rw [Manifest.update_update]
    rfl

/-- C7 witness: two queued callbacks, the first of which throws, are both
invoked in order and the queue is deleted. -/
def c7cb1 : Callback := ⟨JSVal.null, JSVal.fn 1, [JSVal.str "p"]⟩

def c7cb2 : Callback := ⟨JSVal.null, JSVal.fn 2, [JSVal.str "p"]⟩

def c7rec : PackageRecord := { callbacks := some [c7cb1, c7cb2] }

def c7Manifest : Manifest := Manifest.ofList [("p", c7rec)]

def c7ctx : Ctx := ⟨fun _ => true, fun cb => cb.method = JSVal.fn 1, 0x10⟩

theorem invokeCallbacks_fifo_caught_once_witness :
    invokeCallbacksForPackage c7ctx c7Manifest "p"
      = .ok (Manifest.update c7Manifest "p" { c7rec with callbacks := none },
             [c7cb1, c7cb2].map (Event.cbInvoked "p")) ∧
    invokeCallbacksForPackage c7ctx
        (Manifest.update c7Manifest "p" { c7rec with callbacks := none }) "p"
      = .ok (Manifest.update c7Manifest "p" { c7rec with callbacks := none }, []) :=
  invokeCallbacks_fifo_caught_once c7ctx c7Manifest "p" c7rec [c7cb1, c7cb2]
    (by decide) (by decide)

/-! ### C6 -/

theorem invokeCallbacks_after_register (ctx : Ctx) (m : Manifest) (name : String)
    (p : PackageRecord) (cbs : List Callback)
    (hp : m name = some p) (hcb : p.callbacks = none) :
    invokeCallbacksForPackage ctx
        (Manifest.update m name { p with callbacks := some cbs }) name
      = .ok (m, runCallbacks ctx name cbs) := by
  cases p with
  | mk a b c d e f g h i j k =>
    simp only at hcb
    subst hcb
    simp only [invokeCallbacksForPackage, Manifest.update_same, Manifest.update_update,
      Option.getD_some]
    rw [Manifest.update_self m name _ hp]

/-- C6: invoking `loadPackage` on a package that is loaded, ready and
already executed, with a new callback, registers that callback and
invokes it exactly once, synchronously within the call (the whole trace
of the call is the load entry followed by that single invocation), with
the package name as its first argument, and hands nothing to the
execution sink (no `execCode` event); the manifest is unchanged
afterwards. -/
theorem loadPackage_executed_invokes_once (ctx : Ctx) (fuel : Nat) (m : Manifest)
    (name : String) (f : Nat) (args : List JSVal) (p : PackageRecord)
    (hp : m name = some p)
    (hl : p.isLoaded = true) (hr : p.isReady = true)
    (hdne : p.doNotExecute = false) (hfd : p.failedDependencies = none)
    (hdf : p.didFailToEvaluate = false) (hx : p.isExecuted = true)
    (hcb : p.callbacks = none) :
    loadPackage ctx (fuel + 1) m name JSVal.null (JSVal.fn f) args
      = .ok (m, [Event.loadTriggered name,
          Event.cbInvoked name ⟨JSVal.null, JSVal.fn f, JSVal.str name :: args⟩], true) ∧
    (Callback.mk JSVal.null (JSVal.fn f) (JSVal.str name :: args)).args.head?
      = some (JSVal.str name) := by
  refine ⟨?_, rfl⟩
  have hreg : registerCallbackForPackage m name JSVal.null (JSVal.fn f) args
      = Manifest.update m name
          { p with callbacks := some [⟨JSVal.null, JSVal.fn f, JSVal.str name :: args⟩] } := by
    simp [registerCallbackForPackage, hp, scNone, normalizeCallback,
      JSVal.truthy, JSVal.isFunction, hcb]
  have hinv := invokeCallbacks_after_register ctx m name p
    [⟨JSVal.null, JSVal.fn f, JSVal.str name :: args⟩] hp hcb
  rw [runCallbacks_eq_map] at hinv
  simp only [hl, hr, hdne, hfd, hdf, hx] at hreg hinv
  simp [loadPackage, step, hp, hl, hr, hdne, hfd, hdf, hx, hreg, hinv]

/-- C6 witness: a freshly registered callback on an executed package is
invoked exactly once within the call, with the package name first. -/
def c6rec : PackageRecord := { isLoaded := true, isReady := true, isExecuted := true }

def c6Manifest : Manifest := Manifest.ofList [("E", c6rec)]

theorem loadPackage_executed_invokes_once_witness :
    loadPackage ctxNormal 1 c6Manifest "E" JSVal.null (JSVal.fn 7) [JSVal.str "x"]
      = .ok (c6Manifest, [Event.loadTriggered "E",
          Event.cbInvoked "E" ⟨JSVal.null, JSVal.fn 7, [JSVal.str "E", JSVal.str "x"]⟩],
        true) ∧
    (Callback.mk JSVal.null (JSVal.fn 7) [JSVal.str "E", JSVal.str "x"]).args.head?
      = some (JSVal.str "E") :=
  loadPackage_executed_invokes_once ctxNormal 0 c6Manifest "E" 7 [JSVal.str "x"]
    c6rec (by decide) rfl rfl rfl rfl rfl rfl rfl

/-! ### C4 -/

theorem str_empty_append (s : String) : "" ++ s = s := rfl

theorem append_ne_empty_left (a b : String) (h : a ≠ "") : a ++ b ≠ "" := by
  intro hab
  apply h
  apply String.ext
  have hd : (a ++ b).data = a.data ++ b.data := String.data_append a b
  rw [hab] at hd
  have := (List.append_eq_nil).mp hd.symm
  simp [this.1]

/-- The did-execute notification on a package with no dependents always
returns normally, with the notification event at the head of its trace. -/
theorem didExec_no_dependents_ok (ctx : Ctx) (fuel : Nat) (m : Manifest)
    (name : String) (q : PackageRecord)
    (hq : m name = some q) (hd : q.dependents = none) :
    ∃ m2 tr1, step ctx (fuel + 1) (.didExec name) m
      = .ok (m2, Event.didExecute name :: tr1, true) := by
  cases hdf : q.didFailToEvaluate with
  | false =>
    refine ⟨Manifest.update m name { q with isExecuted := true, callbacks := none },
      runCallbacks ctx name (q.callbacks.getD []), ?_⟩
    simp [step, hq, hdf, invokeCallbacksForPackage, Manifest.update_same,
      Manifest.update_update, hd]
  | true =>
    refine ⟨Manifest.update m name { q with callbacks := none },
      runCallbacks ctx name (q.callbacks.getD []), ?_⟩
    simp [step, hq, hdf, invokeCallbacksForPackage, Manifest.update_same,
      Manifest.update_update, hd]

/-- The record state after `_sc_evaluateJavaScriptForPackage` accumulated
code and the sink returned normally: only the source mapping has changed
(`isExecuted` is set later, by the notification). -/
def evalOkRecord (p : PackageRecord) (src1 : Source) : PackageRecord :=
  { p with source := some src1 }

/-- The record state after the sink threw (lines 651-652): partitions
consumed, `isExecuted` forced false, `didFailToEvaluate` set. -/
def evalFailRecord (p : PackageRecord) (src1 : Source) : PackageRecord :=
  { p with source := some src1, isExecuted := false, didFailToEvaluate := true }

/-- Unfolding `_sc_evaluateJavaScriptForPackage` one layer when code is
accumulated and the sink succeeds. -/
theorem eval_unfold_ok (ctx : Ctx) (fuel : Nat) (m : Manifest) (name : String)
    (p : PackageRecord) (src : Source) (code : String) (src1 : Source)
    (hp : m name = some p) (hx : p.isExecuted = false) (hs : p.source = some src)
    (hacc : accumulateCode src (selectParts ctx.flags) "" = (code, src1))
    (hne : code ≠ "") (hE : ctx.exec code = true) :
    step ctx (fuel + 1) (.eval name) m
      = match step ctx fuel (.didExec name)
          (Manifest.update m name (evalOkRecord p src1)) with
        | .error e => .error e
        | .ok (m2, tr, _) => .ok (m2, Event.execCode name code :: tr, true) := by
  simp [step, hp, hx, hs, hacc, hne, hE, evalOkRecord]

/-- Unfolding `_sc_evaluateJavaScriptForPackage` one layer when code is
accumulated and the sink throws. -/
theorem eval_unfold_fail (ctx : Ctx) (fuel : Nat) (m : Manifest) (name : String)
    (p : PackageRecord) (src : Source) (code : String) (src1 : Source)
    (hp : m name = some p) (hx : p.isExecuted = false) (hs : p.source = some src)
    (hacc : accumulateCode src (selectParts ctx.flags) "" = (code, src1))
    (hne : code ≠ "") (hE : ctx.exec code = false) :
    step ctx (fuel + 1) (.eval name) m
      = match step ctx fuel (.didExec name)
          (Manifest.update m name (evalFailRecord p src1)) with
        | .error e => .error e
        | .ok (m2, tr, _) => .ok (m2, Event.execCode name code :: tr, true) := by
  simp [step, hp, hx, hs, hacc, hne, hE, evalFailRecord]

/-- C4: for a package whose source mapping holds code in all four
categories, with the NORMAL bit set in the mode mask, the single code
string handed to the execution sink by
`_sc_evaluateJavaScriptForPackage` is the concatenation, joined by a
statement separator, of the partitions in the fixed order OTHER, MODELS,
CONTROLLERS, VIEWS (the source mapping is a keyed structure, so no
insertion order can influence this); and for every mode mask the
selected partition list is a sublist of that fixed order, so OTHER
always precedes MODELS, CONTROLLERS and VIEWS. -/
theorem evaluate_normal_order (ctx : Ctx) (fuel : Nat) (m : Manifest) (name : String)
    (p : PackageRecord) (src : Source) (o mo co vi : String)
    (hp : m name = some p) (hx : p.isExecuted = false) (hs : p.source = some src)
    (ho : src.other = some o) (hm : src.models = some mo)
    (hc : src.controllers = some co) (hv : src.views = some vi)
    (ho1 : o ≠ "") (hm1 : mo ≠ "") (hc1 : co ≠ "") (hv1 : vi ≠ "")
    (hn : ctx.flags &&& 0x10 ≠ 0) (hd : p.dependents = none) :
    (∃ m1 tr, evaluateJavaScriptForPackage ctx (fuel + 2) m name
        = .ok (m1, Event.execCode name (o ++ ";" ++ mo ++ ";" ++ co ++ ";" ++ vi) :: tr,
          true)) ∧
    (∀ fl : Nat, List.Sublist (selectParts fl)
      [Part.other, Part.models, Part.controllers, Part.views]) := by
  constructor
  · have hsel : selectParts ctx.flags
        = [Part.other, Part.models, Part.controllers, Part.views] := by
      simp [selectParts, hn]
    have h2 : o ++ ";" ++ mo ≠ "" :=
      append_ne_empty_left _ _ (append_ne_empty_left _ _ ho1)
    have h3 : o ++ ";" ++ mo ++ ";" ++ co ≠ "" :=
      append_ne_empty_left _ _ (append_ne_empty_left _ _ h2)
    have hne4 : o ++ ";" ++ mo ++ ";" ++ co ++ ";" ++ vi ≠ "" :=
      append_ne_empty_left _ _ (append_ne_empty_left _ _ h3)
    have hacc : accumulateCode src (selectParts ctx.flags) ""
        = (o ++ ";" ++ mo ++ ";" ++ co ++ ";" ++ vi,
           ((((src.del .other).del .models).del .controllers).del .views)) := by
      rw [hsel]
      simp [accumulateCode, Source.get, Source.del, ho, hm, hc, hv,
        ho1, hm1, hc1, hv1, h2, h3, str_empty_append]
    cases hE : ctx.exec (o ++ ";" ++ mo ++ ";" ++ co ++ ";" ++ vi) with
    | true =>
      obtain ⟨m2, tr1, hde⟩ := didExec_no_dependents_ok ctx fuel
        (Manifest.update m name (evalOkRecord p
          ((((src.del .other).del .models).del .controllers).del .views)))
        name
        (evalOkRecord p ((((src.del .other).del .models).del .controllers).del .views))
        (Manifest.update_same _ _ _) (by simp [evalOkRecord, hd])
      refine ⟨m2, Event.didExecute name :: tr1, ?_⟩
      show step ctx (fuel + 1 + 1) (.eval name) m = _
      rw [eval_unfold_ok ctx (fuel + 1) m name p src _ _ hp hx hs hacc hne4 hE, hde]
    | false =>
      obtain ⟨m2, tr1, hde⟩ := didExec_no_dependents_ok ctx fuel
        (Manifest.update m name (evalFailRecord p
          ((((src.del .other).del .models).del .controllers).del .views)))
        name
        (evalFailRecord p ((((src.del .other).del .models).del .controllers).del .views))
        (Manifest.update_same _ _ _) (by simp [evalFailRecord, hd])
      refine ⟨m2, Event.didExecute name :: tr1, ?_⟩
      show step ctx (fuel + 1 + 1) (.eval name) m = _
      rw [eval_unfold_fail ctx (fuel + 1) m name p src _ _ hp hx hs hacc hne4 hE, hde]
  · intro fl
    unfold selectParts
    split
    · exact List.Sublist.refl _
    · split <;> split <;> split <;> split <;> decide

/-- C4 witness: a package with all four partitions under NORMAL mode
hands `O;M;C;V` to the sink. -/
def c4src : Source :=
  { other := some "O", models := some "M", controllers := some "C", views := some "V" }

def c4rec : PackageRecord := { isLoaded := true, isReady := true, source := some c4src }

def c4Manifest : Manifest := Manifest.ofList [("p", c4rec)]

theorem evaluate_normal_order_witness :
    (∃ m1 tr, evaluateJavaScriptForPackage ctxNormal 2 c4Manifest "p"
        = .ok (m1, Event.execCode "p" ("O" ++ ";" ++ "M" ++ ";" ++ "C" ++ ";" ++ "V") :: tr,
          true)) ∧
    (∀ fl : Nat, List.Sublist (selectParts fl)
      [Part.other, Part.models, Part.controllers, Part.views]) :=
  evaluate_normal_order ctxNormal 0 c4Manifest "p" c4rec c4src "O" "M" "C" "V"
    (by decide) rfl rfl rfl rfl rfl rfl (by decide) (by decide) (by decide) (by decide)
    (by decide) rfl

/-! ### C5 -/

/-- The did-execute notification for a package that just failed
evaluation and has no dependents: the failure flag suppresses the
`isExecuted` assignment, the callbacks still run and are freed. -/
theorem didExec_failed_no_dependents (ctx : Ctx) (fuel : Nat) (m : Manifest)
    (name : String) (q : PackageRecord)
    (hq : m name = some q) (hdf : q.didFailToEvaluate = true) (hd : q.dependents = none) :
    step ctx (fuel + 1) (.didExec name) m
      = .ok (Manifest.update m name { q with callbacks := none },
          Event.didExecute name :: runCallbacks ctx name (q.callbacks.getD []), true) := by
  simp [step, hq, hdf, invokeCallbacksForPackage, Manifest.update_same,
    Manifest.update_update, hd]

/-- Full characterization of an evaluation whose accumulated code makes
the sink throw, for a package with no dependents. -/
theorem evaluateFailed_eq (ctx : Ctx) (fuel : Nat) (m : Manifest) (name : String)
    (p : PackageRecord) (src : Source) (code : String) (src1 : Source)
    (hp : m name = some p) (hx : p.isExecuted = false) (hs : p.source = some src)
    (hacc : accumulateCode src (selectParts ctx.flags) "" = (code, src1))
    (hne : code ≠ "") (hE : ctx.exec code = false) (hd : p.dependents = none) :
    evaluateJavaScriptForPackage ctx (fuel + 2) m name
      = .ok (Manifest.update m name { evalFailRecord p src1 with callbacks := none },
          Event.execCode name code :: Event.didExecute name
            :: runCallbacks ctx name (p.callbacks.getD []), true) := by
  show step ctx (fuel + 1 + 1) (.eval name) m = _
  rw [eval_unfold_fail ctx (fuel + 1) m name p src _ _ hp hx hs hacc hne hE]
  rw [didExec_failed_no_dependents ctx fuel
    (Manifest.update m name (evalFailRecord p src1)) name (evalFailRecord p src1)
    (Manifest.update_same _ _ _) (by simp [evalFailRecord])
    (by simp [evalFailRecord, hd])]
  rw [Manifest.update_update]
  simp [evalFailRecord]

/-- C5: when the accumulated code handed to the sink throws, the error is
caught (the call returns normally), the record's `didFailToEvaluate` flag
is set, its `isExecuted` flag is left false, and the did-execute
notification still runs (its event is in the trace and the callbacks are
invoked and freed) so dependents can be poisoned. -/
theorem evaluate_throw_caught (ctx : Ctx) (fuel : Nat) (m : Manifest) (name : String)
    (p : PackageRecord) (src : Source) (code : String) (src1 : Source)
    (hp : m name = some p) (hx : p.isExecuted = false) (hs : p.source = some src)
    (hacc : accumulateCode src (selectParts ctx.flags) "" = (code, src1))
    (hne : code ≠ "") (hE : ctx.exec code = false) (hd : p.dependents = none) :
    evaluateJavaScriptForPackage ctx (fuel + 2) m name
      = .ok (Manifest.update m name { evalFailRecord p src1 with callbacks := none },
          Event.execCode name code :: Event.didExecute name
            :: runCallbacks ctx name (p.callbacks.getD []), true) ∧
    ({ evalFailRecord p src1 with callbacks := none } : PackageRecord).didFailToEvaluate
      = true ∧
    ({ evalFailRecord p src1 with callbacks := none } : PackageRecord).isExecuted
      = false := by
  exact ⟨evaluateFailed_eq ctx fuel m name p src code src1 hp hx hs hacc hne hE hd,
    by simp [evalFailRecord], by simp [evalFailRecord]⟩

/-- An execution context whose sink always throws. -/
def ctxThrow : Ctx := ⟨fun _ => false, fun _ => false, 0x10⟩

/-- C5 witness: a one-package manifest whose only partition throws. -/
def c5src : Source := { other := some "boom" }

def c5rec : PackageRecord := { isLoaded := true, isReady := true, source := some c5src }

def c5Manifest : Manifest := Manifest.ofList [("p", c5rec)]

theorem evaluate_throw_caught_witness :
    evaluateJavaScriptForPackage ctxThrow 2 c5Manifest "p"
      = .ok (Manifest.update c5Manifest "p"
            { evalFailRecord c5rec { c5src with other := none } with callbacks := none },
          Event.execCode "p" "boom" :: Event.didExecute "p"
            :: runCallbacks ctxThrow "p" (c5rec.callbacks.getD []), true) ∧
    ({ evalFailRecord c5rec { c5src with other := none } with callbacks := none }
      : PackageRecord).didFailToEvaluate = true ∧
    ({ evalFailRecord c5rec { c5src with other := none } with callbacks := none }
      : PackageRecord).isExecuted = false :=
  evaluate_throw_caught ctxThrow 0 c5Manifest "p" c5rec c5src "boom"
    { c5src with other := none } (by decide) rfl rfl (by decide) (by decide) rfl rfl

/-! ### C9 -/

theorem Source.get_del (src : Source) (a b : Part) :
    (src.del a).get b = if b = a then none else src.get b := by
  cases a <;> cases b <;> simp [Source.get, Source.del]

theorem accumulateCode_get_shrink (parts : List Part) (src : Source) (acc : String)
    (q : Part) :
    (accumulateCode src parts acc).2.get q = src.get q ∨
    (accumulateCode src parts acc).2.get q = none := by
  induction parts generalizing src acc with
  | nil => exact Or.inl rfl
  | cons part rest ih =>
    cases hg : src.get part with
    | none =>
      rw [show accumulateCode src (part :: rest) acc = accumulateCode src rest acc from
        by simp [accumulateCode, hg]]
      exact ih src acc
    | some s =>
      by_cases hs : s = ""
      · rw [show accumulateCode src (part :: rest) acc = accumulateCode src rest acc from
          by simp [accumulateCode, hg, hs]]
        exact ih src acc
      · rw [show accumulateCode src (part :: rest) acc
            = accumulateCode (src.del part) rest
              (if acc ≠ "" then acc ++ ";" ++ s else acc ++ s) from
          by simp [accumulateCode, hg, hs]]
        rcases ih (src.del part) (if acc ≠ "" then acc ++ ";" ++ s else acc ++ s) with h | h
        · rw [Source.get_del] at h
          by_cases hq : q = part
          · right; rw [h, if_pos hq]
          · left; rw [h, if_neg hq]
        · exact Or.inr h

theorem accumulateCode_clears_selected (parts : List Part) (src : Source) (acc : String)
    (q : Part) (hq : q ∈ parts) :
    optTruthy ((accumulateCode src parts acc).2.get q) = false := by
  induction parts generalizing src acc with
  | nil => cases hq
  | cons part rest ih =>
    cases hg : src.get part with
    | none =>
      rw [show accumulateCode src (part :: rest) acc = accumulateCode src rest acc from
        by simp [accumulateCode, hg]]
      rcases List.mem_cons.mp hq with hq1 | hq2
      · subst hq1
        rcases accumulateCode_get_shrink rest src acc q with h | h
        · rw [h, hg]; rfl
        · rw [h]; rfl
      · exact ih src acc hq2
    | some s =>
      by_cases hs : s = ""
      · rw [show accumulateCode src (part :: rest) acc = accumulateCode src rest acc from
          by simp [accumulateCode, hg, hs]]
        rcases List.mem_cons.mp hq with hq1 | hq2
        · subst hq1
          rcases accumulateCode_get_shrink rest src acc q with h | h
          · rw [h, hg, hs]; rfl
          · rw [h]; rfl
        · exact ih src acc hq2
      · rw [show accumulateCode src (part :: rest) acc
            = accumulateCode (src.del part) rest
              (if acc ≠ "" then acc ++ ";" ++ s else acc ++ s) from
          by simp [accumulateCode, hg, hs]]
        rcases List.mem_cons.mp hq with hq1 | hq2
        · subst hq1
          rcases accumulateCode_get_shrink rest (src.del q)
              (if acc ≠ "" then acc ++ ";" ++ s else acc ++ s) q with h | h
          · rw [h, Source.get_del, if_pos rfl]; rfl
          · rw [h]; rfl
        · exact ih (src.del part) (if acc ≠ "" then acc ++ ";" ++ s else acc ++ s) hq2

theorem accumulateCode_no_truthy_id (parts : List Part) (src : Source) (acc : String)
    (h : ∀ q ∈ parts, optTruthy (src.get q) = false) :
    accumulateCode src parts acc = (acc, src) := by
  induction parts generalizing acc with
  | nil => rfl
  | cons part rest ih =>
    have hp := h part (by simp)
    cases hg : src.get part with
    | none =>
      rw [show accumulateCode src (part :: rest) acc = accumulateCode src rest acc from
        by simp [accumulateCode, hg]]
      exact ih acc (fun q hq => h q (by simp [hq]))
    | some s =>
      rw [hg] at hp
      have hs : s = "" := by simpa [optTruthy] using hp
      rw [show accumulateCode src (part :: rest) acc = accumulateCode src rest acc from
        by simp [accumulateCode, hg, hs]]
      exact ih acc (fun q hq => h q (by simp [hq]))

/-- C9: the partitions selected for evaluation are deleted from the
record's source mapping while the code string is accumulated, before the
sink runs; so after a throwing execution the stored source has no truthy
selected partition left, and a second evaluation attempt for the same
package and mode accumulates nothing and leaves the manifest untouched
(no `execCode` event, empty trace, identical store). -/
theorem evaluate_partitions_consumed_despite_throw (ctx : Ctx) (fuel : Nat)
    (m : Manifest) (name : String)
    (p : PackageRecord) (src : Source) (code : String) (src1 : Source)
    (hp : m name = some p) (hx : p.isExecuted = false) (hs : p.source = some src)
    (hacc : accumulateCode src (selectParts ctx.flags) "" = (code, src1))
    (hne : code ≠ "") (hE : ctx.exec code = false) (hd : p.dependents = none) :
    evaluateJavaScriptForPackage ctx (fuel + 2) m name
      = .ok (Manifest.update m name { evalFailRecord p src1 with callbacks := none },
          Event.execCode name code :: Event.didExecute name
            :: runCallbacks ctx name (p.callbacks.getD []), true) ∧
    (∀ q ∈ selectParts ctx.flags, optTruthy (src1.get q) = false) ∧
    (∀ fuel2 : Nat, evaluateJavaScriptForPackage ctx (fuel2 + 1)
        (Manifest.update m name { evalFailRecord p src1 with callbacks := none }) name
      = .ok (Manifest.update m name { evalFailRecord p src1 with callbacks := none },
          [], true)) := by
  have hclear : ∀ q ∈ selectParts ctx.flags, optTruthy (src1.get q) = false := by
    intro q hq
    have h1 := accumulateCode_clears_selected (selectParts ctx.flags) src "" q hq
    rw [hacc] at h1
    exact h1
  refine ⟨evaluateFailed_eq ctx fuel m name p src code src1 hp hx hs hacc hne hE hd,
    hclear, ?_⟩
  intro fuel2
  have hacc2 : accumulateCode src1 (selectParts ctx.flags) "" = ("", src1) :=
    accumulateCode_no_truthy_id (selectParts ctx.flags) src1 "" hclear
  simp only [evaluateJavaScriptForPackage, step, Manifest.update_same]
  simp [evalFailRecord, hacc2, Manifest.update_update]

/-- C9 witness: after the throwing evaluation of the `boom` package no
selected partition survives and a second attempt is the identity. -/
def c9src : Source := { other := some "zap", models := some "pow" }

def c9rec : PackageRecord := { isLoaded := true, isReady := true, source := some c9src }

def c9Manifest : Manifest := Manifest.ofList [("q", c9rec)]

def c9src1 : Source := { other := none, models := none }

theorem evaluate_partitions_consumed_despite_throw_witness :
    evaluateJavaScriptForPackage ctxThrow 2 c9Manifest "q"
      = .ok (Manifest.update c9Manifest "q"
            { evalFailRecord c9rec c9src1 with callbacks := none },
          Event.execCode "q" ("zap" ++ ";" ++ "pow") :: Event.didExecute "q"
            :: runCallbacks ctxThrow "q" (c9rec.callbacks.getD []), true) ∧
    (∀ q ∈ selectParts ctxThrow.flags, optTruthy (c9src1.get q) = false) ∧
    (∀ fuel2 : Nat, evaluateJavaScriptForPackage ctxThrow (fuel2 + 1)
        (Manifest.update c9Manifest "q"
          { evalFailRecord c9rec c9src1 with callbacks := none }) "q"
      = .ok (Manifest.update c9Manifest "q"
            { evalFailRecord c9rec c9src1 with callbacks := none },
          [], true)) :=
  evaluate_partitions_consumed_despite_throw ctxThrow 0 c9Manifest "q" c9rec c9src
    ("zap" ++ ";" ++ "pow") c9src1 (by decide) rfl rfl (by decide) (by decide) rfl rfl

/-! ### C2 -/

/-- The record of a package whose callbacks were just invoked and freed. -/
def clearedCallbacks (a : PackageRecord) : PackageRecord := { a with callbacks := none }

/-- The record of a package marked executed by the notification, with its
callbacks freed. -/
def execDoneRecord (a : PackageRecord) : PackageRecord :=
  { a with isExecuted := true, callbacks := none }

/-- A dependent poisoned by a failed dependency (lines 791-795): the
failed name is appended to `failedDependencies` and `doNotExecute` is
set; the `dependencies` list is not touched. -/
def poisonRecord (b : PackageRecord) (name : String) : PackageRecord :=
  { b with failedDependencies := some (b.failedDependencies.getD [] ++ [name]), doNotExecute := true }

/-- A dependent whose last dependency was removed and whose re-triggered
load found it not yet fetched: empty dependency list, ready, loading. -/
def retriggeredRecord (b : PackageRecord) : PackageRecord :=
  { b with dependencies := some [], isReady := true, isLoading := true }

def c2aRec : PackageRecord :=
  { isLoaded := true, didFailToEvaluate := true, dependents := some ["B"] }

def c2bRec : PackageRecord := { isLoaded := true, dependencies := some ["A"] }

def c2Manifest : Manifest := Manifest.ofList [("A", c2aRec), ("B", c2bRec)]

/-- C2 counterexample: package A failed evaluation and B depends on it;
after A's did-execute notification, B's dependency set still contains
"A" (the poisoning branch at lines 791-796 continues before the
`removeAt` at line 799), contradicting the claim that the name is
removed from every waiting dependent. -/
theorem packageDidExecute_failure_keeps_dependency :
    (packageDidExecute ctxNormal 10 c2Manifest "A").map
      (fun r => (r.1 "B").map
        (fun q => (q.dependencies, q.doNotExecute, q.failedDependencies)))
      = .ok (some (some ["A"], true, some ["A"])) := rfl

/-- The did-execute notification for a failed package with one waiting
dependent: the dependent is poisoned and its dependency list is left
unchanged. -/
theorem didExec_failed_poisons (ctx : Ctx) (fuel : Nat) (m : Manifest)
    (A B : String) (a b : PackageRecord) (l : List String) (pos : Nat)
    (hA : m A = some a) (hfail : a.didFailToEvaluate = true)
    (hdeps : a.dependents = some [B]) (hne : A ≠ B)
    (hB : m B = some b) (hbr : b.isReady = false)
    (hbd : b.dependencies = some l)
    (hfind : l.findIdx? (fun x => x = A) = some pos) :
    step ctx (fuel + 3) (.didExec A) m
      = .ok (Manifest.update (Manifest.update m A (clearedCallbacks a)) B
            (poisonRecord b A),
          Event.didExecute A :: runCallbacks ctx A (a.callbacks.getD []), true) := by
  have hne2 : B ≠ A := Ne.symm hne
  simp [step, hA, hfail, hdeps, invokeCallbacksForPackage, Manifest.update_same,
    Manifest.update_update, Manifest.update_ne _ _ _ _ hne2, hB, hbr, hbd, hfind,
    clearedCallbacks, poisonRecord]

/-- The did-execute notification for a successfully executed package with
one waiting dependent whose only dependency it was: the dependency is
removed, the dependent becomes ready and `loadPackage` is re-triggered
for it (here reaching the fetch path since the dependent is unloaded). -/
theorem didExec_success_retriggers (ctx : Ctx) (fuel : Nat) (m : Manifest)
    (A B : String) (a b : PackageRecord)
    (hA : m A = some a) (hok : a.didFailToEvaluate = false)
    (hdeps : a.dependents = some [B]) (hne : A ≠ B)
    (hB : m B = some b) (hbr : b.isReady = false)
    (hbd : b.dependencies = some [A]) (hbl : b.isLoaded = false) :
    step ctx (fuel + 3) (.didExec A) m
      = .ok (Manifest.update (Manifest.update m A (execDoneRecord a)) B
            (retriggeredRecord b),
          Event.didExecute A :: (runCallbacks ctx A (a.callbacks.getD [])
            ++ [Event.loadTriggered B, Event.fetch B]), true) := by
  have hne2 : B ≠ A := Ne.symm hne
  simp [step, hA, hok, hdeps, invokeCallbacksForPackage, Manifest.update_same,
    Manifest.update_update, Manifest.update_ne _ _ _ _ hne2, hB, hbr, hbd, hbl,
    dependenciesMetForPackage, registerCallbackForPackage, scNone, loadJavaScriptFor,
    execDoneRecord, retriggeredRecord]

/-- Executedness as the dependent loop observes it: the notifying
package was just marked executed; every other record still carries the
`isExecuted` flag it had when the notification began (the shallow
re-triggered loads in the controlled scenarios below never execute
anything). -/
def ExecutedInBase (m : Manifest) (A x : String) : Prop :=
  x = A ∨ ((m x).getD default).isExecuted = true

/-- A dependent whose removal left only executed dependencies: the list
is deleted when non-empty and kept as the empty list otherwise (the C1
behavior), the record is ready, and the re-triggered load of the
unfetched package set `isLoading`. -/
def readyRecord (b : PackageRecord) (rem : List String) : PackageRecord :=
  { b with dependencies := if rem = [] then some [] else none, isReady := true, isLoading := true }

/-- A dependent for which unexecuted dependencies remain after the
removal: the shrunken list is stored and `isReady` is explicitly false. -/
def stillWaitingRecord (b : PackageRecord) (rem : List String) : PackageRecord :=
  { b with dependencies := some rem, isReady := false }

theorem findIdx_some_of_mem (A : String) (l : List String) (h : A ∈ l) :
    ∃ pos, l.findIdx? (fun x => x = A) = some pos :=
  ⟨l.findIdx (fun x => x = A), List.findIdx?_eq_some_of_exists ⟨A, h, by simp⟩⟩

/-- `loadPackage` on a not-yet-fetched package with no callback arguments
only marks it loading and issues the fetch. -/
theorem loadPackage_unloaded (ctx : Ctx) (f : Nat) (m : Manifest) (d : String)
    (b : PackageRecord) (hb : m d = some b) (hl : b.isLoaded = false) :
    step ctx (f + 1) (.load d JSVal.null JSVal.null []) m
      = .ok (Manifest.update m d { b with isLoading := true },
          [Event.loadTriggered d, Event.fetch d], false) := by
  simp [step, hb, hl, registerCallbackForPackage, scNone, loadJavaScriptFor]

/-- `_sc_dependenciesMetForPackage` right after a removal left the list
with only executed members (or empty): ready, and the list is deleted
exactly when non-empty. -/
theorem depsMet_met (m2 : Manifest) (d : String) (b : PackageRecord) (rem : List String)
    (hd : m2 d = some { b with dependencies := some rem })
    (hpres : ∀ x ∈ rem, (m2 x).isSome)
    (hall : rem.all (fun x => ((m2 x).getD default).isExecuted) = true) :
    dependenciesMetForPackage m2 d
      = .ok (true, Manifest.update m2 d
          { b with dependencies := if rem = [] then some [] else none, isReady := true }) := by
  cases rem with
  | nil => simp [dependenciesMetForPackage, hd]
  | cons r rs =>
    have hrw := depsAllExecuted_ok m2 d (r :: rs) hpres
    simp [dependenciesMetForPackage, hd, hrw, hall]
    rfl

/-- The same call when some remaining member is unexecuted: not ready,
list kept. -/
theorem depsMet_unmet (m2 : Manifest) (d : String) (b : PackageRecord) (rem : List String)
    (hd : m2 d = some { b with dependencies := some rem })
    (hpres : ∀ x ∈ rem, (m2 x).isSome)
    (hall : rem.all (fun x => ((m2 x).getD default).isExecuted) = false) :
    dependenciesMetForPackage m2 d
      = .ok (false, Manifest.update m2 d
          { b with dependencies := some rem, isReady := false }) := by
  cases rem with
  | nil => simp at hall
  | cons r rs =>
    have hrw := depsAllExecuted_ok m2 d (r :: rs) hpres
    simp [dependenciesMetForPackage, hd, hrw, hall]
    rfl

/-- How the loop's executedness read relates to the base manifest: the
notifying package reads as executed, the dependent under update keeps
its own flag, everything else is untouched. -/
theorem execView_eq (m mcur : Manifest) (A d : String) (bnew : PackageRecord)
    (hIE : ∀ x, x ≠ A → Option.map (fun q => q.isExecuted) (mcur x)
      = Option.map (fun q => q.isExecuted) (m x))
    (hqa : ∃ qa, mcur A = some qa ∧ qa.isExecuted = true)
    (hdA : d ≠ A)
    (hbx : bnew.isExecuted = ((m d).getD default).isExecuted)
    (x : String) :
    (((Manifest.update mcur d bnew) x).getD default).isExecuted = true
      ↔ ExecutedInBase m A x := by
  by_cases hxA : x = A
  · subst hxA
    obtain ⟨qa, hqa1, hqa2⟩ := hqa
    rw [Manifest.update_ne _ _ _ _ (Ne.symm hdA), hqa1]
    simp [ExecutedInBase, hqa2]
  · by_cases hxd : x = d
    · subst hxd
      rw [Manifest.update_same]
      simp [ExecutedInBase, hxA, hbx]
    · rw [Manifest.update_ne _ _ _ _ hxd]
      have h1 := hIE x hxA
      simp only [ExecutedInBase, hxA, false_or]
      cases hmx : m x with
      | none =>
        rw [hmx] at h1
        cases hmc : mcur x with
        | none => simp
        | some q => rw [hmc] at h1; simp at h1
      | some q =>
        rw [hmx] at h1
        cases hmc : mcur x with
        | none => rw [hmc] at h1; simp at h1
        | some q2 =>
          rw [hmc] at h1
          have h2 : q2.isExecuted = q.isExecuted := by simpa using h1
          simp [h2]

/-- One iteration of the dependent loop in the failed case: poison and
keep going; the dependency list is untouched. -/
theorem depLoop_cons_failed_unfold (ctx : Ctx) (f : Nat) (A d : String)
    (rest : List String) (mcur : Manifest) (b : PackageRecord) (l : List String)
    (pos : Nat) (hmcd : mcur d = some b) (hbd : b.dependencies = some l)
    (hbr : b.isReady = false) (hfind : l.findIdx? (fun x => x = A) = some pos) :
    step ctx (f + 1) (.depLoop true A (d :: rest)) mcur
      = step ctx f (.depLoop true A rest) (Manifest.update mcur d (poisonRecord b A)) := by
  simp [step, hmcd, hbd, hbr, hfind, poisonRecord]

/-- One iteration of the dependent loop in the success case when the
removal leaves the dependencies met: remove, mark ready, re-trigger the
load, then continue. -/
theorem depLoop_cons_met_unfold (ctx : Ctx) (f : Nat) (A d : String)
    (rest : List String) (mcur : Manifest) (b : PackageRecord) (l : List String)
    (pos : Nat) (M2 : Manifest)
    (hmcd : mcur d = some b) (hbd : b.dependencies = some l)
    (hbr : b.isReady = false) (hfind : l.findIdx? (fun x => x = A) = some pos)
    (hdm : dependenciesMetForPackage
        (Manifest.update mcur d { b with dependencies := some (l.eraseIdx pos) }) d
      = .ok (true, M2)) :
    step ctx (f + 1) (.depLoop false A (d :: rest)) mcur
      = match step ctx f (.load d JSVal.null JSVal.null []) M2 with
        | .error e => .error e
        | .ok (m3, tr1, _) =>
          match step ctx f (.depLoop false A rest) m3 with
          | .error e => .error e
          | .ok (m4, tr2, _) => .ok (m4, tr1 ++ tr2, true) := by
  have hdm2 := hdm
  simp only [hbr] at hdm2
  simp [step, hmcd, hbd, hbr, hfind, hdm2]

/-- One iteration of the dependent loop in the success case when
unexecuted dependencies remain: remove and continue, nothing re-triggered
for this dependent. -/
theorem depLoop_cons_unmet_unfold (ctx : Ctx) (f : Nat) (A d : String)
    (rest : List String) (mcur : Manifest) (b : PackageRecord) (l : List String)
    (pos : Nat) (M2 : Manifest)
    (hmcd : mcur d = some b) (hbd : b.dependencies = some l)
    (hbr : b.isReady = false) (hfind : l.findIdx? (fun x => x = A) = some pos)
    (hdm : dependenciesMetForPackage
        (Manifest.update mcur d { b with dependencies := some (l.eraseIdx pos) }) d
      = .ok (false, M2)) :
    step ctx (f + 1) (.depLoop false A (d :: rest)) mcur
      = step ctx f (.depLoop false A rest) M2 := by
  have hdm2 := hdm
  simp only [hbr] at hdm2
  simp [step, hmcd, hbd, hbr, hfind, hdm2]

/-- The full dependent loop after a failed execution: every waiting
dependent is poisoned (its record becomes exactly `poisonRecord`, so its
dependency list is untouched); packages outside the list are untouched. -/
theorem depLoop_failed (ctx : Ctx) (A : String) (m : Manifest) :
    ∀ (ds : List String), ds.Nodup → A ∉ ds →
    ∀ (fuel : Nat) (mcur : Manifest),
      (∀ d ∈ ds, mcur d = m d) →
      (∀ d ∈ ds, ∃ b l, m d = some b ∧ b.isReady = false ∧
        b.dependencies = some l ∧ A ∈ l) →
      ds.length + 1 ≤ fuel →
      ∃ m' tr, step ctx fuel (.depLoop true A ds) mcur = .ok (m', tr, true) ∧
        (∀ d ∈ ds, ∃ b, m d = some b ∧ m' d = some (poisonRecord b A)) ∧
        (∀ x, x ∉ ds → m' x = mcur x) := by
  intro ds
  induction ds with
  | nil =>
    intro _ _ fuel mcur _ _ hfuel
    obtain ⟨f, rfl⟩ : ∃ f, fuel = f + 1 := ⟨fuel - 1, by omega⟩
    exact ⟨mcur, [], by simp [step], by simp, fun x _ => rfl⟩
  | cons d rest ih =>
    intro hnodup hAmem fuel mcur hpres hds hfuel
    obtain ⟨f, rfl⟩ : ∃ f, fuel = f + 1 := ⟨fuel - 1, by omega⟩
    simp only [List.length_cons] at hfuel
    have hdmem : d ∈ d :: rest := List.mem_cons_self d rest
    have hdnotin : d ∉ rest := (List.nodup_cons.mp hnodup).1
    obtain ⟨b, l, hb, hbr, hbd, hmem⟩ := hds d hdmem
    obtain ⟨pos, hfind⟩ := findIdx_some_of_mem A l hmem
    have hmcd : mcur d = some b := (hpres d hdmem).trans hb
    have hunf := depLoop_cons_failed_unfold ctx f A d rest mcur b l pos hmcd hbd hbr hfind
    obtain ⟨m', tr, hstep', hpois, hframe⟩ := ih (List.nodup_cons.mp hnodup).2
      (fun h => hAmem (List.mem_cons_of_mem d h)) f
      (Manifest.update mcur d (poisonRecord b A))
      (fun d' hd' => by
        rw [Manifest.update_ne _ _ _ _ (ne_of_mem_of_not_mem hd' hdnotin)]
        exact hpres d' (List.mem_cons_of_mem d hd'))
      (fun d' hd' => hds d' (List.mem_cons_of_mem d hd'))
      (by omega)
    refine ⟨m', tr, by rw [hunf, hstep'], ?_, ?_⟩
    · intro d' hd'
      rcases List.mem_cons.mp hd' with rfl | hd2
      · exact ⟨b, hb, by rw [hframe d' hdnotin, Manifest.update_same]⟩
      · exact hpois d' hd2
    · intro x hx
      have hx1 : x ∉ rest := fun h => hx (List.mem_cons_of_mem d h)
      have hx2 : x ≠ d := (ne_of_mem_of_not_mem hdmem hx).symm
      rw [hframe x hx1, Manifest.update_ne _ _ _ _ hx2]

/-- The full dependent loop after a successful execution, when every
waiting dependent is unfetched: each dependent loses the executed name
from its dependency list and, exactly when no unexecuted dependency
remains (the executed name itself counting as executed), becomes ready —
with the list deleted when other names remain, kept empty otherwise —
and has its load re-triggered; otherwise it keeps the shrunken list, not
ready.  Packages outside the list are untouched. -/
theorem depLoop_success (ctx : Ctx) (A : String) (m : Manifest) :
    ∀ (ds : List String), ds.Nodup → A ∉ ds →
    ∀ (fuel : Nat) (mcur : Manifest),
      (∀ d ∈ ds, mcur d = m d) →
      (∀ x, x ≠ A → Option.map (fun q => q.isExecuted) (mcur x)
        = Option.map (fun q => q.isExecuted) (m x)) →
      (∃ qa, mcur A = some qa ∧ qa.isExecuted = true) →
      (∀ d ∈ ds, ∃ b l, m d = some b ∧ b.isReady = false ∧ b.isLoaded = false ∧
        b.dependencies = some l ∧ A ∈ l ∧ (∀ x ∈ l, x = A ∨ (m x).isSome)) →
      ds.length + 1 ≤ fuel →
      ∃ m' tr, step ctx fuel (.depLoop false A ds) mcur = .ok (m', tr, true) ∧
        (∀ d ∈ ds, ∃ b l pos, m d = some b ∧ b.dependencies = some l ∧
          l.findIdx? (fun x => x = A) = some pos ∧
          ((∀ x ∈ l.eraseIdx pos, ExecutedInBase m A x) →
            m' d = some (readyRecord b (l.eraseIdx pos)) ∧
            Event.loadTriggered d ∈ tr) ∧
          (¬ (∀ x ∈ l.eraseIdx pos, ExecutedInBase m A x) →
            m' d = some (stillWaitingRecord b (l.eraseIdx pos)))) ∧
        (∀ x, x ∉ ds → m' x = mcur x) := by
  intro ds
  induction ds with
  | nil =>
    intro _ _ fuel mcur _ _ _ _ hfuel
    obtain ⟨f, rfl⟩ : ∃ f, fuel = f + 1 := ⟨fuel - 1, by omega⟩
    exact ⟨mcur, [], by simp [step], by simp, fun x _ => rfl⟩
  | cons d rest ih =>
    intro hnodup hAmem fuel mcur hpres hIE hqa hds hfuel
    obtain ⟨f, rfl⟩ : ∃ f, fuel = f + 1 := ⟨fuel - 1, by omega⟩
    simp only [List.length_cons] at hfuel
    have hdmem : d ∈ d :: rest := List.mem_cons_self d rest
    have hdA : d ≠ A := ne_of_mem_of_not_mem hdmem hAmem
    have hdnotin : d ∉ rest := (List.nodup_cons.mp hnodup).1
    have hnodup2 := (List.nodup_cons.mp hnodup).2
    have hAmem2 : A ∉ rest := fun h => hAmem (List.mem_cons_of_mem d h)
    obtain ⟨b, l, hb, hbr, hbl, hbd, hmem, hres⟩ := hds d hdmem
    obtain ⟨pos, hfind⟩ := findIdx_some_of_mem A l hmem
    have hmcd : mcur d = some b := (hpres d hdmem).trans hb
    have hpres2 : ∀ x ∈ l.eraseIdx pos,
        ((Manifest.update mcur d { b with dependencies := some (l.eraseIdx pos) }) x).isSome := by
      intro x hx
      by_cases hxd : x = d
      · subst hxd; rw [Manifest.update_same]; rfl
      · rw [Manifest.update_ne _ _ _ _ hxd]
        by_cases hxA : x = A
        · subst hxA
          obtain ⟨qa, hqa1, _⟩ := hqa
          rw [hqa1]; rfl
        · rcases hres x (List.mem_of_mem_eraseIdx hx) with h1 | h1
          · exact absurd h1 hxA
          · have h2 := hIE x hxA
            cases hmx : m x with
            | none => rw [hmx] at h1; simp at h1
            | some q =>
              cases hmc : mcur x with
              | none => rw [hmx, hmc] at h2; simp at h2
              | some q2 => simp [hmc]
    have hview := execView_eq m mcur A d { b with dependencies := some (l.eraseIdx pos) }
      hIE hqa hdA (by simp [hb])
    by_cases hall : ∀ x ∈ l.eraseIdx pos, ExecutedInBase m A x
    · have hballs : (l.eraseIdx pos).all (fun x =>
          (((Manifest.update mcur d { b with dependencies := some (l.eraseIdx pos) }) x).getD
            default).isExecuted) = true :=
        List.all_eq_true.mpr (fun x hx => (hview x).mpr (hall x hx))
      have hdm := depsMet_met
        (Manifest.update mcur d { b with dependencies := some (l.eraseIdx pos) }) d b
        (l.eraseIdx pos) (Manifest.update_same _ _ _) hpres2 hballs
      rw [Manifest.update_update] at hdm
      have hunf := depLoop_cons_met_unfold ctx f A d rest mcur b l pos _
        hmcd hbd hbr hfind hdm
      obtain ⟨f2, rfl⟩ : ∃ f2, f = f2 + 1 := ⟨f - 1, by omega⟩
      set RM : PackageRecord := { b with dependencies := if l.eraseIdx pos = [] then some [] else none, isReady := true } with hRM
      have hload := loadPackage_unloaded ctx f2 (Manifest.update mcur d RM) d RM
        (Manifest.update_same _ _ _) (by rw [hRM]; simp [hbl])
      rw [Manifest.update_update] at hload
      have hbridge : ({ RM with isLoading := true } : PackageRecord)
          = readyRecord b (l.eraseIdx pos) := by simp [hRM, readyRecord]
      rw [hbridge] at hload
      obtain ⟨m', tr', hstep', hfacts', hframe'⟩ := ih hnodup2 hAmem2 (f2 + 1)
        (Manifest.update mcur d (readyRecord b (l.eraseIdx pos)))
        (fun d' hd' => by
          rw [Manifest.update_ne _ _ _ _ (ne_of_mem_of_not_mem hd' hdnotin)]
          exact hpres d' (List.mem_cons_of_mem d hd'))
        (fun x hxA => by
          by_cases hxd : x = d
          · subst hxd
            rw [Manifest.update_same, hb]
            simp [readyRecord]
          · rw [Manifest.update_ne _ _ _ _ hxd]
            exact hIE x hxA)
        (by
          obtain ⟨qa, hqa1, hqa2⟩ := hqa
          exact ⟨qa, by rw [Manifest.update_ne _ _ _ _ (Ne.symm hdA)]; exact hqa1, hqa2⟩)
        (fun d' hd' => hds d' (List.mem_cons_of_mem d hd'))
        (by omega)
      refine ⟨m', [Event.loadTriggered d, Event.fetch d] ++ tr', ?_, ?_, ?_⟩
      · rw [hunf, hload]
        simp only [hstep']
      · intro d' hd'
        rcases List.mem_cons.mp hd' with rfl | hd2
        · refine ⟨b, l, pos, hb, hbd, hfind, fun _ => ⟨?_, by simp⟩,
            fun hcon => absurd hall hcon⟩
          rw [hframe' d' hdnotin, Manifest.update_same]
        · obtain ⟨b', l', pos', h1, h2, h3, h4, h5⟩ := hfacts' d' hd2
          refine ⟨b', l', pos', h1, h2, h3, fun hall' => ⟨(h4 hall').1, ?_⟩, h5⟩
          exact List.mem_append.mpr (Or.inr (h4 hall').2)
      · intro x hx
        have hx1 : x ∉ rest := fun h => hx (List.mem_cons_of_mem d h)
        have hx2 : x ≠ d := (ne_of_mem_of_not_mem hdmem hx).symm
        rw [hframe' x hx1, Manifest.update_ne _ _ _ _ hx2]
    · have hballs : (l.eraseIdx pos).all (fun x =>
          (((Manifest.update mcur d { b with dependencies := some (l.eraseIdx pos) }) x).getD
            default).isExecuted) = false := by
        rw [Bool.eq_false_iff]
        intro hcon
        exact hall (fun x hx => (hview x).mp (List.all_eq_true.mp hcon x hx))
      have hdm := depsMet_unmet
        (Manifest.update mcur d { b with dependencies := some (l.eraseIdx pos) }) d b
        (l.eraseIdx pos) (Manifest.update_same _ _ _) hpres2 hballs
      rw [Manifest.update_update] at hdm
      have hunf := depLoop_cons_unmet_unfold ctx f A d rest mcur b l pos _
        hmcd hbd hbr hfind hdm
      obtain ⟨m', tr', hstep', hfacts', hframe'⟩ := ih hnodup2 hAmem2 f
        (Manifest.update mcur d
          { b with dependencies := some (l.eraseIdx pos), isReady := false })
        (fun d' hd' => by
          rw [Manifest.update_ne _ _ _ _ (ne_of_mem_of_not_mem hd' hdnotin)]
          exact hpres d' (List.mem_cons_of_mem d hd'))
        (fun x hxA => by
          by_cases hxd : x = d
          · subst hxd
            rw [Manifest.update_same, hb]
            simp
          · rw [Manifest.update_ne _ _ _ _ hxd]
            exact hIE x hxA)
        (by
          obtain ⟨qa, hqa1, hqa2⟩ := hqa
          exact ⟨qa, by rw [Manifest.update_ne _ _ _ _ (Ne.symm hdA)]; exact hqa1, hqa2⟩)
        (fun d' hd' => hds d' (List.mem_cons_of_mem d hd'))
        (by omega)
      refine ⟨m', tr', by rw [hunf, hstep'], ?_, ?_⟩
      · intro d' hd'
        rcases List.mem_cons.mp hd' with rfl | hd2
        · refine ⟨b, l, pos, hb, hbd, hfind, fun hcon => absurd hcon hall, fun _ => ?_⟩
          rw [hframe' d' hdnotin, Manifest.update_same]
          rfl
        · exact hfacts' d' hd2
      · intro x hx
        have hx1 : x ∉ rest := fun h => hx (List.mem_cons_of_mem d h)
        have hx2 : x ≠ d := (ne_of_mem_of_not_mem hdmem hx).symm
        rw [hframe' x hx1, Manifest.update_ne _ _ _ _ hx2]

/-- Unfolding the did-execute notification down to the dependent loop
when there are dependents. -/
theorem didExec_unfold_to_loop (ctx : Ctx) (f : Nat) (m : Manifest) (A : String)
    (a : PackageRecord) (ds : List String) (df : Bool) (rec1 : PackageRecord)
    (hA : m A = some a) (hdeps : a.dependents = some ds) (hne : ds ≠ [])
    (hdf : a.didFailToEvaluate = df)
    (hrec : rec1 = (if df then clearedCallbacks a else execDoneRecord a)) :
    step ctx (f + 1) (.didExec A) m
      = match step ctx f (.depLoop df A ds) (Manifest.update m A rec1) with
        | .error e => .error e
        | .ok (m3, tr2, _) =>
          .ok (m3, Event.didExecute A
            :: (runCallbacks ctx A (a.callbacks.getD []) ++ tr2), true) := by
  subst hrec
  cases df with
  | true =>
    simp [step, hA, hdf, invokeCallbacksForPackage, Manifest.update_same,
      Manifest.update_update, hdeps, hne, clearedCallbacks]
  | false =>
    simp [step, hA, hdf, invokeCallbacksForPackage, Manifest.update_same,
      Manifest.update_update, hdeps, hne, execDoneRecord]

/-- The did-execute notification when the dependents list is present but
empty: flags and callbacks are handled, the loop is skipped. -/
theorem didExec_no_dep_list (ctx : Ctx) (f : Nat) (m : Manifest) (A : String)
    (a : PackageRecord) (df : Bool) (rec1 : PackageRecord)
    (hA : m A = some a) (hdeps : a.dependents = some [])
    (hdf : a.didFailToEvaluate = df)
    (hrec : rec1 = (if df then clearedCallbacks a else execDoneRecord a)) :
    step ctx (f + 1) (.didExec A) m
      = .ok (Manifest.update m A rec1,
          Event.didExecute A :: runCallbacks ctx A (a.callbacks.getD []), true) := by
  subst hrec
  cases df with
  | true =>
    simp [step, hA, hdf, invokeCallbacksForPackage, Manifest.update_same,
      Manifest.update_update, hdeps, clearedCallbacks]
  | false =>
    simp [step, hA, hdf, invokeCallbacksForPackage, Manifest.update_same,
      Manifest.update_update, hdeps, execDoneRecord]

/-- C2 corrected: when `_sc_packageDidExecute(name)` runs, every waiting
dependent — one whose dependency list contains the name and which is not
marked ready when the loop reaches it — is updated as follows.  If the
package succeeded, the name is removed from that dependent's dependency
set (also when other dependencies remain) and, exactly when no
unexecuted dependency remains (in particular when the set is now empty),
`loadPackage` is re-triggered for the dependent; when unexecuted
dependencies remain, the dependent keeps the shrunken list and stays not
ready.  If the package failed, the name is NOT removed — the dependency
set is left unchanged — and the dependent is instead poisoned:
`doNotExecute` is set and the name is appended to `failedDependencies`.
Proven for any number of waiting dependents with arbitrary dependency
lists; in the success branch each dependent is unfetched, so the
re-triggered loads stop at the fetch and touch no other record. -/
theorem packageDidExecute_dependent_update (ctx : Ctx) (fuel : Nat) (m : Manifest)
    (A : String) (ds : List String) (a : PackageRecord)
    (hA : m A = some a) (hdeps : a.dependents = some ds)
    (hnodup : ds.Nodup) (hAds : A ∉ ds)
    (hfuel : ds.length + 2 ≤ fuel) :
    (a.didFailToEvaluate = true →
      (∀ d ∈ ds, ∃ b l, m d = some b ∧ b.isReady = false ∧
        b.dependencies = some l ∧ A ∈ l) →
      ∃ m1 tr, packageDidExecute ctx fuel m A = .ok (m1, tr, true) ∧
        ∀ d ∈ ds, ∃ b, m d = some b ∧ m1 d = some (poisonRecord b A) ∧
          (poisonRecord b A).dependencies = b.dependencies ∧
          (poisonRecord b A).doNotExecute = true ∧
          A ∈ (poisonRecord b A).failedDependencies.getD []) ∧
    (a.didFailToEvaluate = false →
      (∀ d ∈ ds, ∃ b l, m d = some b ∧ b.isReady = false ∧ b.isLoaded = false ∧
        b.dependencies = some l ∧ A ∈ l ∧ (∀ x ∈ l, x = A ∨ (m x).isSome)) →
      ∃ m1 tr, packageDidExecute ctx fuel m A = .ok (m1, tr, true) ∧
        ∀ d ∈ ds, ∃ b l pos, m d = some b ∧ b.dependencies = some l ∧
          l.findIdx? (fun x => x = A) = some pos ∧
          ((∀ x ∈ l.eraseIdx pos, ExecutedInBase m A x) →
            m1 d = some (readyRecord b (l.eraseIdx pos)) ∧
            Event.loadTriggered d ∈ tr) ∧
          (¬ (∀ x ∈ l.eraseIdx pos, ExecutedInBase m A x) →
            m1 d = some (stillWaitingRecord b (l.eraseIdx pos)))) := by
  obtain ⟨f, rfl⟩ : ∃ f, fuel = f + 1 := ⟨fuel - 1, by omega⟩
  have hflen : ds.length + 1 ≤ f := by omega
  constructor
  · intro hdf hds
    cases hds0 : ds with
    | nil =>
      subst hds0
      exact ⟨_, _, didExec_no_dep_list ctx f m A a true (clearedCallbacks a)
        hA hdeps hdf (by simp), by simp⟩
    | cons d rest =>
      rw [hds0] at hdeps hnodup hAds hflen hds
      have h0 := didExec_unfold_to_loop ctx f m A a (d :: rest) true
        (clearedCallbacks a) hA hdeps (by simp) hdf (by simp)
      obtain ⟨m', tr2, hstep2, hpois, _⟩ := depLoop_failed ctx A m (d :: rest)
        hnodup hAds f (Manifest.update m A (clearedCallbacks a))
        (fun d' hd' => Manifest.update_ne _ _ _ _ (ne_of_mem_of_not_mem hd' hAds))
        hds hflen
      rw [hstep2] at h0
      refine ⟨m', Event.didExecute A
        :: (runCallbacks ctx A (a.callbacks.getD []) ++ tr2), h0, ?_⟩
      intro d' hd'
      obtain ⟨b, hb, hm'⟩ := hpois d' hd'
      exact ⟨b, hb, hm', rfl, rfl, by simp [poisonRecord]⟩
  · intro hdf hds
    cases hds0 : ds with
    | nil =>
      subst hds0
      exact ⟨_, _, didExec_no_dep_list ctx f m A a false (execDoneRecord a)
        hA hdeps hdf (by simp), by simp⟩
    | cons d rest =>
      rw [hds0] at hdeps hnodup hAds hflen hds
      have h0 := didExec_unfold_to_loop ctx f m A a (d :: rest) false
        (execDoneRecord a) hA hdeps (by simp) hdf (by simp)
      obtain ⟨m', tr2, hstep2, hfacts, _⟩ := depLoop_success ctx A m (d :: rest)
        hnodup hAds f (Manifest.update m A (execDoneRecord a))
        (fun d' hd' => Manifest.update_ne _ _ _ _ (ne_of_mem_of_not_mem hd' hAds))
        (fun x hxA => by
          by_cases hxa2 : x = A
          · exact absurd hxa2 hxA
          · rw [Manifest.update_ne _ _ _ _ hxa2])
        ⟨execDoneRecord a, Manifest.update_same _ _ _, rfl⟩
        hds hflen
      rw [hstep2] at h0
      refine ⟨m', Event.didExecute A
        :: (runCallbacks ctx A (a.callbacks.getD []) ++ tr2), h0, ?_⟩
      intro d' hd'
      obtain ⟨b, l, pos, h1, h2, h3, h4, h5⟩ := hfacts d' hd'
      refine ⟨b, l, pos, h1, h2, h3, fun hall => ⟨(h4 hall).1, ?_⟩, h5⟩
      exact List.mem_cons_of_mem _ (List.mem_append.mpr (Or.inr (h4 hall).2))

/-- C2 witness: two waiting dependents with two-element dependency lists.
In the failure run both B and C are poisoned with their lists untouched.
In the success run B (remaining dependency Z, already executed) has its
list deleted and its load re-triggered, while C (remaining dependency W,
not executed) keeps the shrunken list and stays not ready. -/
def c2ARecOk : PackageRecord :=
  { isLoaded := true, isReady := true, dependents := some ["B", "C"] }

def c2ARecBad : PackageRecord :=
  { isLoaded := true, didFailToEvaluate := true, dependents := some ["B", "C"] }

def c2BRec : PackageRecord := { dependencies := some ["A", "Z"] }

def c2CRec : PackageRecord := { dependencies := some ["W", "A"] }

def c2ZRec : PackageRecord := { isExecuted := true }

def c2WRec : PackageRecord := {}

def c2OkManifest : Manifest := Manifest.ofList
  [("A", c2ARecOk), ("B", c2BRec), ("C", c2CRec), ("Z", c2ZRec), ("W", c2WRec)]

def c2BadManifest : Manifest := Manifest.ofList
  [("A", c2ARecBad), ("B", c2BRec), ("C", c2CRec), ("Z", c2ZRec), ("W", c2WRec)]

theorem packageDidExecute_dependent_update_witness :
    (∃ m1 tr, packageDidExecute ctxNormal 4 c2BadManifest "A" = .ok (m1, tr, true) ∧
      ∀ d ∈ ["B", "C"], ∃ b, c2BadManifest d = some b ∧
        m1 d = some (poisonRecord b "A") ∧
        (poisonRecord b "A").dependencies = b.dependencies ∧
        (poisonRecord b "A").doNotExecute = true ∧
        "A" ∈ (poisonRecord b "A").failedDependencies.getD []) ∧
    (∃ m1 tr, packageDidExecute ctxNormal 4 c2OkManifest "A" = .ok (m1, tr, true) ∧
      ∀ d ∈ ["B", "C"], ∃ b l pos, c2OkManifest d = some b ∧ b.dependencies = some l ∧
        l.findIdx? (fun x => x = "A") = some pos ∧
        ((∀ x ∈ l.eraseIdx pos, ExecutedInBase c2OkManifest "A" x) →
          m1 d = some (readyRecord b (l.eraseIdx pos)) ∧
          Event.loadTriggered d ∈ tr) ∧
        (¬ (∀ x ∈ l.eraseIdx pos, ExecutedInBase c2OkManifest "A" x) →
          m1 d = some (stillWaitingRecord b (l.eraseIdx pos)))) := by
  constructor
  · refine (packageDidExecute_dependent_update ctxNormal 4 c2BadManifest "A"
      ["B", "C"] c2ARecBad rfl rfl (by decide) (by decide) (by decide)).1 rfl ?_
    intro d hd
    rcases List.mem_cons.mp hd with rfl | hd2
    · exact ⟨c2BRec, ["A", "Z"], rfl, rfl, rfl, by decide⟩
    rcases List.mem_cons.mp hd2 with rfl | hd3
    · exact ⟨c2CRec, ["W", "A"], rfl, rfl, rfl, by decide⟩
    · cases hd3
  · refine (packageDidExecute_dependent_update ctxNormal 4 c2OkManifest "A"
      ["B", "C"] c2ARecOk rfl rfl (by decide) (by decide) (by decide)).2 rfl ?_
    intro d hd
    rcases List.mem_cons.mp hd with rfl | hd2
    · exact ⟨c2BRec, ["A", "Z"], rfl, rfl, rfl, rfl, by decide, by decide⟩
    rcases List.mem_cons.mp hd2 with rfl | hd3
    · exact ⟨c2CRec, ["W", "A"], rfl, rfl, rfl, rfl, by decide, by decide⟩
    · cases hd3

/-! ### C3 -/

/-- `registerCallbackForPackage` either leaves the manifest unchanged or
only replaces the record's callback queue. -/
theorem registerCallback_cases (m : Manifest) (name : String)
    (tgt mth : JSVal) (args : List JSVal) (p : PackageRecord) (hp : m name = some p) :
    registerCallbackForPackage m name tgt mth args = m ∨
    ∃ cbs, registerCallbackForPackage m name tgt mth args
      = Manifest.update m name { p with callbacks := cbs } := by
  unfold registerCallbackForPackage
  rw [hp]
  by_cases h1 : (scNone tgt && scNone mth) = true
  · left; simp [h1]
  · rcases hn : normalizeCallback tgt mth args with ⟨t1, m1, a1⟩
    by_cases h2 : (!m1.truthy || !m1.isFunction) = true
    · left; simp [h1, hn, h2]
    · right
      refine ⟨some (p.callbacks.getD []
        ++ [⟨t1, m1, JSVal.str name :: a1⟩]), ?_⟩
      simp [h1, hn, h2]

/-- Invariant carried by a poisoned record across a `loadPackage` call:
the record stays present, stays poisoned, and its `isExecuted` flag is
untouched. -/
def PoisonedStays (p : PackageRecord) (name : String) :
    Except String (Manifest × List Event × Bool) → Prop
  | .error _ => True
  | .ok (m1, _, _) => ∃ q, m1 name = some q ∧ q.doNotExecute = true ∧
      q.isExecuted = p.isExecuted

/-- A package with `doNotExecute` set never reaches the evaluator through
`loadPackage`: whatever branch the call takes (fetch, not-ready return,
or the poisoned-guard return at lines 217-221), the record keeps
`doNotExecute` and its `isExecuted` flag. -/
theorem loadPackage_preserves_poisoned (ctx : Ctx) (fuel : Nat) (m : Manifest)
    (name : String) (tgt mth : JSVal) (args : List JSVal) (p : PackageRecord)
    (hp : m name = some p) (hdne : p.doNotExecute = true) :
    PoisonedStays p name (step ctx fuel (.load name tgt mth args) m) := by
  cases fuel with
  | zero => trivial
  | succ fuel =>
    by_cases hl : p.isLoaded = true
    · by_cases hr : p.isReady = true
      · have hg : (p.doNotExecute || p.failedDependencies.isSome
            || p.didFailToEvaluate) = true := by simp [hdne]
        have hstep : step ctx (fuel + 1) (.load name tgt mth args) m
            = .ok (m, [Event.loadTriggered name], true) := by
          simp [step, hp, hl, hr, hg]
        rw [hstep]
        exact ⟨p, hp, hdne, rfl⟩
      · have hrb : p.isReady = false := by simpa using hr
        have hstep : step ctx (fuel + 1) (.load name tgt mth args) m
            = .ok (m, [Event.loadTriggered name], false) := by
          simp [step, hp, hl, hrb]
        rw [hstep]
        exact ⟨p, hp, hdne, rfl⟩
    · have hlb : p.isLoaded = false := by simpa using hl
      rcases registerCallback_cases m name tgt mth args p hp with hreg | ⟨cbs, hreg⟩
      · have hstep : step ctx (fuel + 1) (.load name tgt mth args) m
            = .ok (Manifest.update m name { p with isLoading := true },
                [Event.loadTriggered name, Event.fetch name], false) := by
          simp [step, hp, hlb, hreg, loadJavaScriptFor]
        rw [hstep]
        exact ⟨{ p with isLoading := true }, Manifest.update_same _ _ _,
          by simp [hdne], rfl⟩
      · have hstep : step ctx (fuel + 1) (.load name tgt mth args) m
            = .ok (Manifest.update m name { p with isLoading := true, callbacks := cbs },
                [Event.loadTriggered name, Event.fetch name], false) := by
          simp [step, hp, hlb, hreg, loadJavaScriptFor, Manifest.update_same,
            Manifest.update_update]
        rw [hstep]
        exact ⟨{ p with isLoading := true, callbacks := cbs },
          Manifest.update_same _ _ _, by simp [hdne], rfl⟩

/-- Iterating `loadPackage` any number of times on a poisoned,
not-executed package never sets its `isExecuted` flag. -/
theorem iterLoadPackage_keeps_unexecuted (ctx : Ctx) (fuel2 : Nat) (B : String)
    (tgt mth : JSVal) (args : List JSVal) :
    ∀ (k : Nat) (m : Manifest) (q0 : PackageRecord), m B = some q0 →
      q0.doNotExecute = true → q0.isExecuted = false →
      ∃ q, iterLoadPackage ctx fuel2 B tgt mth args k m B = some q ∧
        q.doNotExecute = true ∧ q.isExecuted = false := by
  intro k
  induction k with
  | zero => intro m q0 h hd hx; exact ⟨q0, h, hd, hx⟩
  | succ k ih =>
    intro m q0 h hd hx
    have hps := loadPackage_preserves_poisoned ctx fuel2 m B tgt mth args q0 h hd
    unfold iterLoadPackage
    cases hstep : step ctx fuel2 (.load B tgt mth args) m with
    | error e =>
      simp only [hstep]
      exact ⟨q0, h, hd, hx⟩
    | ok res =>
      rw [hstep] at hps
      rcases res with ⟨m1, tr, r⟩
      simp only [PoisonedStays] at hps
      obtain ⟨q1, hq1, hqd, hqx⟩ := hps
      simp only [hstep]
      exact ih m1 q1 hq1 hqd (hqx.trans hx)

/-- C3: if package A fails evaluation and B depends solely on A, then
after A's did-execute notification B is poisoned — `doNotExecute` is
true, `failedDependencies` contains A, `isExecuted` is false — and no
number of further `loadPackage(B)` calls (any fuel, any callback
arguments) ever sets B's `isExecuted` flag. -/
theorem poisoning_is_permanent (ctx : Ctx) (fuel : Nat) (m : Manifest)
    (A B : String) (a b : PackageRecord)
    (hA : m A = some a) (hfail : a.didFailToEvaluate = true)
    (hdeps : a.dependents = some [B]) (hne : A ≠ B)
    (hB : m B = some b) (hbr : b.isReady = false)
    (hbd : b.dependencies = some [A]) (hbx : b.isExecuted = false) :
    ∃ m1, packageDidExecute ctx (fuel + 3) m A
        = .ok (m1, Event.didExecute A :: runCallbacks ctx A (a.callbacks.getD []), true) ∧
      m1 B = some (poisonRecord b A) ∧
      (poisonRecord b A).doNotExecute = true ∧
      A ∈ (poisonRecord b A).failedDependencies.getD [] ∧
      (poisonRecord b A).isExecuted = false ∧
      (∀ fuel2 k tgt mth args, ∃ q,
        iterLoadPackage ctx fuel2 B tgt mth args k m1 B = some q ∧
          q.isExecuted = false) := by
  have hfind : ([A].findIdx? (fun x => x = A)) = some 0 := by simp [List.findIdx?]
  have hmain := didExec_failed_poisons ctx fuel m A B a b [A] 0
    hA hfail hdeps hne hB hbr hbd hfind
  refine ⟨Manifest.update (Manifest.update m A (clearedCallbacks a)) B
    (poisonRecord b A), hmain, Manifest.update_same _ _ _, rfl, ?_, ?_, ?_⟩
  · simp [poisonRecord]
  · simp [poisonRecord, hbx]
  · intro fuel2 k tgt mth args
    obtain ⟨q, hq, _, hqx⟩ := iterLoadPackage_keeps_unexecuted ctx fuel2 B tgt mth args
      k (Manifest.update (Manifest.update m A (clearedCallbacks a)) B (poisonRecord b A))
      (poisonRecord b A) (Manifest.update_same _ _ _) rfl (by simp [poisonRecord, hbx])
    exact ⟨q, hq, hqx⟩

/-- C3 witness: the concrete failed-A / dependent-B manifest. -/
def c3aRec : PackageRecord :=
  { isLoaded := true, didFailToEvaluate := true, dependents := some ["B"] }

def c3bRec : PackageRecord := { isLoaded := true, dependencies := some ["A"] }

def c3Manifest : Manifest := Manifest.ofList [("A", c3aRec), ("B", c3bRec)]

theorem poisoning_is_permanent_witness :
    ∃ m1, packageDidExecute ctxNormal 3 c3Manifest "A"
        = .ok (m1, Event.didExecute "A"
            :: runCallbacks ctxNormal "A" (c3aRec.callbacks.getD []), true) ∧
      m1 "B" = some (poisonRecord c3bRec "A") ∧
      (poisonRecord c3bRec "A").doNotExecute = true ∧
      "A" ∈ (poisonRecord c3bRec "A").failedDependencies.getD [] ∧
      (poisonRecord c3bRec "A").isExecuted = false ∧
      (∀ fuel2 k tgt mth args, ∃ q,
        iterLoadPackage ctxNormal fuel2 "B" tgt mth args k m1 "B" = some q ∧
          q.isExecuted = false) :=
  poisoning_is_permanent ctxNormal 0 c3Manifest "A" "B" c3aRec c3bRec
    (by decide) (by decide) (by decide) (by decide) (by decide) (by decide)
    (by decide) (by decide)

end Blossom
